import Mathlib

/-!
# NoteMesh graph visualization: a shallow embedding

This file embeds the `GraphRenderer` class of NoteMesh (graph.js) in Lean 4
and proves properties of its graph construction (`generateGraph`), physics
simulation (`updatePhysics`), camera handling (`onWheel`), interaction
(`onMouseMove`, `getNodeAt`), rendering (`render`) and lifecycle
(`bindEvents` / `destroy`).

JavaScript numbers are modelled as real numbers; note identifiers as
naturals.  Randomized initial placement is modelled by passing an explicit
position source `rand : Nat → ℝ × ℝ` (one pair of unit draws per node
index).  Event-listener identity (JavaScript function objects produced by
`.bind(this)`) is modelled by allocating a fresh numeric handle per `bind`
call from a counter.
-/

namespace NoteMesh

/-- A note as consumed from the note store: identifier, title, content,
tags, and the pre-extracted outbound link titles. -/
structure Note where
  id : Nat
  title : String
  content : String
  tags : List String
  links : List String

/-- Edge kind: direct-link edges carry no `type` field in the source;
shared-tag edges carry `type: 'tag'`. -/
inductive EdgeKind where
  | direct
  | tag
  deriving DecidableEq, Repr

/-- A graph edge as pushed by `generateGraph`. -/
structure GEdge where
  source : Nat
  target : Nat
  strength : ℝ
  kind : EdgeKind
  commonTags : List String

/-- A graph node as created by `generateGraph`: note data copied over,
position, velocity, radius and direct-link connection count. -/
structure GNode where
  id : Nat
  title : String
  content : String
  tags : List String
  links : List String
  x : ℝ
  y : ℝ
  vx : ℝ
  vy : ℝ
  radius : ℝ
  connections : Nat

/-- `this.config.node.radius`. -/
def nodeRadius : ℝ := 8

/-- `this.config.node.radiusHovered`. -/
def nodeRadiusHovered : ℝ := 10

/-- `this.config.node.radiusSelected`. -/
def nodeRadiusSelected : ℝ := 12

/-- The physics block of `this.config`. -/
structure PhysicsConfig where
  repulsion : ℝ
  attraction : ℝ
  damping : ℝ
  minDistance : ℝ
  maxDistance : ℝ

/-- `this.config.physics`. -/
def defaultPhysics : PhysicsConfig :=
  { repulsion := 100, attraction := 0.01, damping := 0.95,
    minDistance := 50, maxDistance := 200 }

/-- `toLowerCase()`: characterwise lowercasing of a string. -/
def lowerStr (s : String) : String :=
  String.mk (s.data.map Char.toLower)

/-- `this.nodes.find(node => node.title.toLowerCase() === linkTitle.toLowerCase())`. -/
def findByTitle (ns : List GNode) (linkTitle : String) : Option GNode :=
  ns.find? fun n => lowerStr n.title == lowerStr linkTitle

/-- The `existingEdge` lookup of `generateGraph`: the first edge joining the
unordered pair `{i, j}` (checked in both orientations). -/
def edgeBetween (es : List GEdge) (i j : Nat) : Option GEdge :=
  es.find? fun e => (e.source == i && e.target == j) || (e.source == j && e.target == i)

/-- `node.connections++` applied to the node(s) with identifier `i`. -/
def bumpConn (ns : List GNode) (i : Nat) : List GNode :=
  ns.map fun n => if n.id = i then { n with connections := n.connections + 1 } else n

/-- The body of the inner `forEach(linkTitle => ...)` of the direct-link
pass: resolve the link title, skip self links and already connected pairs,
otherwise push a direct edge and increment both connection counts. -/
def processLink (st : List GNode × List GEdge) (srcId : Nat) (linkTitle : String) :
    List GNode × List GEdge :=
  match findByTitle st.1 linkTitle with
  | none => st
  | some target =>
    if srcId ≠ target.id then
      match edgeBetween st.2 srcId target.id with
      | some _ => st
      | none =>
          (bumpConn (bumpConn st.1 srcId) target.id,
           st.2 ++ [{ source := srcId, target := target.id, strength := 1,
                      kind := EdgeKind.direct, commonTags := [] }])
    else st

/-- The direct-link pass for one source node: fold `processLink` over its
outbound link titles. -/
def processSource (st : List GNode × List GEdge) (src : GNode) : List GNode × List GEdge :=
  src.links.foldl (fun s t => processLink s src.id t) st

/-- The full direct-link pass (`// Create edges based on note links`). -/
def addDirectEdges (ns : List GNode) : List GNode × List GEdge :=
  ns.foldl processSource (ns, [])

/-- The body of the doubly nested tag pass for the ordered pair `(a, b)`:
skip self pairs, pairs with no common tags, and pairs already connected
(by an edge of either kind, in either orientation). -/
def tagEdgeStep (a b : GNode) (es : List GEdge) : List GEdge :=
  if a.id ≠ b.id then
    let commonTags := a.tags.filter fun tg => b.tags.contains tg
    if 0 < commonTags.length then
      match edgeBetween es a.id b.id with
      | some _ => es
      | none => es ++ [{ source := a.id, target := b.id, strength := 0.3,
                         kind := EdgeKind.tag, commonTags := commonTags }]
    else es
  else es

/-- The full shared-tag pass (`// Create tag-based connections (weaker)`):
every ordered pair of nodes is visited. -/
def addTagEdges (ns : List GNode) (es : List GEdge) : List GEdge :=
  ns.foldl (fun acc a => ns.foldl (fun acc2 b => tagEdgeStep a b acc2) acc) es

/-- `// Adjust node sizes based on connections`. -/
noncomputable def adjustRadius (n : GNode) : GNode :=
  { n with radius := max nodeRadius (nodeRadius + n.connections * 2) }

/-- `getGraphBounds()`: `(minX, maxX, minY, maxY)` of all node positions. -/
noncomputable def getGraphBounds (ns : List GNode) : ℝ × ℝ × ℝ × ℝ :=
  match ns with
  | [] => (0, 0, 0, 0)
  | n0 :: _ =>
      ns.foldl
        (fun (b : ℝ × ℝ × ℝ × ℝ) n =>
          (min b.1 n.x, max b.2.1 n.x, min b.2.2.1 n.y, max b.2.2.2 n.y))
        (n0.x, n0.x, n0.y, n0.y)

/-- `centerGraph()`: translate every node so the bounding-box center moves
to the viewport center. -/
noncomputable def centerGraph (W H : ℝ) (ns : List GNode) : List GNode :=
  match ns with
  | [] => []
  | _ :: _ =>
      let b := getGraphBounds ns
      let offsetX := W / 2 - (b.1 + b.2.1) / 2
      let offsetY := H / 2 - (b.2.2.1 + b.2.2.2) / 2
      ns.map fun n => { n with x := n.x + offsetX, y := n.y + offsetY }

/-- One fresh node per note (`notes.forEach((note, index) => ...)`): note
fields copied, position random within the viewport, zero velocity, base
radius, zero connections. -/
noncomputable def mkNodes (rand : Nat → ℝ × ℝ) (W H : ℝ) : Nat → List Note → List GNode
  | _, [] => []
  | i, note :: rest =>
      { id := note.id, title := note.title, content := note.content,
        tags := note.tags, links := note.links,
        x := (rand i).1 * W, y := (rand i).2 * H,
        vx := 0, vy := 0, radius := nodeRadius, connections := 0 }
        :: mkNodes rand W H (i + 1) rest

/-- `generateGraph()`: nodes from notes, direct-link pass, shared-tag pass,
radius adjustment, recentering.  An empty note collection yields empty
nodes and edges (the source draws the empty-state message and returns). -/
noncomputable def generateGraph (notes : List Note) (rand : Nat → ℝ × ℝ) (W H : ℝ) :
    List GNode × List GEdge :=
  if notes.length = 0 then ([], [])
  else
    let ns0 := mkNodes rand W H 0 notes
    let st := addDirectEdges ns0
    let es := addTagEdges st.1 st.2
    (centerGraph W H (st.1.map adjustRadius), es)

/-- The camera: pan offset and zoom scalar. -/
structure Camera where
  x : ℝ
  y : ℝ
  zoom : ℝ

/-- `onWheel`: multiplicative zoom step (×0.9 when scrolling down, ×1.1
otherwise) clamped to [0.1, 3], anchored at the pointer position. -/
noncomputable def onWheel (cam : Camera) (px py deltaY : ℝ) : Camera :=
  let scaleFactor : ℝ := if 0 < deltaY then 0.9 else 1.1
  let newZoom := max 0.1 (min 3 (cam.zoom * scaleFactor))
  { x := px - (px - cam.x) * (newZoom / cam.zoom),
    y := py - (py - cam.y) * (newZoom / cam.zoom),
    zoom := newZoom }

/-! ## Physics (`updatePhysics`) -/

/-- One ordered pair `(aId, bId)` of the repulsion double loop: nodes closer
than `maxDistance` (and not coincident) repel with magnitude
`repulsion / d²`; the pair at the same identifier is skipped. -/
noncomputable def repulseStep (cfg : PhysicsConfig) (ns : List GNode) (aId bId : Nat) :
    List GNode :=
  if aId = bId then ns
  else
    match ns.find? (fun n => n.id == aId), ns.find? (fun n => n.id == bId) with
    | some a, some b =>
        let dx := b.x - a.x
        let dy := b.y - a.y
        let distance := Real.sqrt (dx * dx + dy * dy)
        if distance = 0 then ns
        else if distance < cfg.maxDistance then
          let force := cfg.repulsion / (distance * distance)
          let fx := dx / distance * force
          let fy := dy / distance * force
          ns.map fun n =>
            if n.id = aId then { n with vx := n.vx - fx, vy := n.vy - fy }
            else if n.id = bId then { n with vx := n.vx + fx, vy := n.vy + fy }
            else n
        else ns
    | _, _ => ns

/-- `// Apply forces between nodes`: the full double `forEach`. -/
noncomputable def applyRepulsion (cfg : PhysicsConfig) (ns : List GNode) : List GNode :=
  let ids := ns.map fun n => n.id
  ids.foldl (fun acc aId => ids.foldl (fun acc2 bId => repulseStep cfg acc2 aId bId) acc) ns

/-- One edge of the spring pass: resolve both endpoints (silently skipping
dangling edges), compute the Hookean force toward the edge-kind dependent
target distance, and apply it with opposite signs to the two endpoints. -/
noncomputable def applyEdgeSpring (cfg : PhysicsConfig) (ns : List GNode) (e : GEdge) :
    List GNode :=
  match ns.find? (fun n => n.id == e.source), ns.find? (fun n => n.id == e.target) with
  | some s, some t =>
      let dx := t.x - s.x
      let dy := t.y - s.y
      let distance := Real.sqrt (dx * dx + dy * dy)
      if distance = 0 then ns
      else
        let targetDistance :=
          if e.kind = EdgeKind.tag then cfg.maxDistance * 1.5 else cfg.maxDistance
        let force := cfg.attraction * (distance - targetDistance) * e.strength
        let fx := dx / distance * force
        let fy := dy / distance * force
        ns.map fun n =>
          if n.id = e.source then { n with vx := n.vx + fx, vy := n.vy + fy }
          else if n.id = e.target then { n with vx := n.vx - fx, vy := n.vy - fy }
          else n
  | _, _ => ns

/-- `// Apply spring forces for connected nodes`. -/
noncomputable def applySprings (cfg : PhysicsConfig) (es : List GEdge) (ns : List GNode) :
    List GNode :=
  es.foldl (applyEdgeSpring cfg) ns

/-- `// Update positions and apply damping` for one node: damp the velocity,
move, then clamp both axes to `[margin, canvas − margin]` (two sequential
`if`s per axis), zeroing the axis velocity whenever a clamp fires. -/
noncomputable def integrateNode (cfg : PhysicsConfig) (W H : ℝ) (n : GNode) : GNode :=
  let vx := n.vx * cfg.damping
  let vy := n.vy * cfg.damping
  let x := n.x + vx
  let y := n.y + vy
  let margin := n.radius + 10
  let cx1 : ℝ × ℝ := if x < margin then (margin, 0) else (x, vx)
  let cx2 : ℝ × ℝ := if cx1.1 > W - margin then (W - margin, 0) else cx1
  let cy1 : ℝ × ℝ := if y < margin then (margin, 0) else (y, vy)
  let cy2 : ℝ × ℝ := if cy1.1 > H - margin then (H - margin, 0) else cy1
  { n with x := cx2.1, y := cy2.1, vx := cx2.2, vy := cy2.2 }

/-- The integration loop: every node is integrated and clamped except the
one currently being dragged (`if (node === this.dragNode) return`). -/
noncomputable def integrate (cfg : PhysicsConfig) (dragNode : Option Nat) (W H : ℝ)
    (ns : List GNode) : List GNode :=
  ns.map fun n => if dragNode = some n.id then n else integrateNode cfg W H n

/-- `updatePhysics()`: repulsion pass, spring pass, then integration with
boundary clamping. -/
noncomputable def updatePhysics (cfg : PhysicsConfig) (es : List GEdge)
    (dragNode : Option Nat) (W H : ℝ) (ns : List GNode) : List GNode :=
  integrate cfg dragNode W H (applySprings cfg es (applyRepulsion cfg ns))

/-! ## Interaction (`getNodeAt`, `onMouseMove`) -/

/-- `getNodeAt(x, y)`: map the pointer through the inverse camera transform
and return the first node whose center is within its stored radius. -/
noncomputable def getNodeAt (ns : List GNode) (cam : Camera) (x y : ℝ) : Option GNode :=
  let transformedX := (x - cam.x) / cam.zoom
  let transformedY := (y - cam.y) / cam.zoom
  ns.find? fun n =>
    let dx := transformedX - n.x
    let dy := transformedY - n.y
    decide (Real.sqrt (dx * dx + dy * dy) ≤ n.radius)

/-- The interaction-relevant state of the renderer instance. -/
structure InteractionState where
  isDragging : Bool
  dragNode : Option Nat
  isPanning : Bool
  lastPanPos : Option (ℝ × ℝ)
  hoveredNode : Option Nat
  camera : Camera
  nodes : List GNode
  cursor : String

/-- `onMouseMove(e)`: drag the held node to the inverse-transformed pointer
position with zero velocity, or pan the camera, or update the hover state. -/
noncomputable def onMouseMove (st : InteractionState) (px py : ℝ) : InteractionState :=
  match st.isDragging, st.dragNode with
  | true, some d =>
      { st with nodes := st.nodes.map fun n =>
          if n.id = d then
            { n with x := (px - st.camera.x) / st.camera.zoom,
                     y := (py - st.camera.y) / st.camera.zoom,
                     vx := 0, vy := 0 }
          else n }
  | _, _ =>
    match st.isPanning, st.lastPanPos with
    | true, some lp =>
        { st with
            camera := { st.camera with x := st.camera.x + (px - lp.1),
                                       y := st.camera.y + (py - lp.2) },
            lastPanPos := some (px, py) }
    | _, _ =>
        let hovered := getNodeAt st.nodes st.camera px py
        { st with hoveredNode := hovered.map fun n => n.id,
                  cursor := if hovered.isSome then "pointer" else "grab" }

/-! ## Rendering (`render` and helpers), as a list of canvas commands -/

/-- The 2D-context operations the renderer issues, in order. -/
inductive Cmd where
  | clearRect (x y w h : ℝ)
  | save
  | restore
  | translate (x y : ℝ)
  | scale (k : ℝ)
  | line (x1 y1 x2 y2 : ℝ) (dashed : Bool) (highlighted : Bool)
  | circle (x y r : ℝ) (color : String)
  | fillRect (x y w h : ℝ)
  | strokeRect (x y w h : ℝ)
  | text (s : String) (x y : ℝ)

/-- `truncateText`'s shrink loop over the character list: drop the last
character while the text plus ellipsis exceeds the width budget. -/
noncomputable def truncLoop (measure : String → ℝ) (maxWidth : ℝ) : List Char → List Char
  | [] => []
  | c :: cs =>
      if measure (String.mk ((c :: cs) ++ "...".data)) > maxWidth then
        truncLoop measure maxWidth (c :: cs).dropLast
      else c :: cs
  termination_by cs => cs.length
  decreasing_by simp [List.length_dropLast]

/-- `truncateText(text, maxWidth)`. -/
noncomputable def truncateText (measure : String → ℝ) (text : String) (maxWidth : ℝ) :
    String :=
  if measure text ≤ maxWidth then text
  else String.mk (truncLoop measure maxWidth text.data) ++ "..."

/-- `wrapText`'s greedy word loop: returns emitted line commands plus the
pending line and its y coordinate. -/
noncomputable def wrapLoop (measure : String → ℝ) (x maxWidth lineHeight : ℝ) :
    List String → String → ℝ → Bool → List Cmd × String × ℝ
  | [], line, curY, _ => ([], line, curY)
  | w :: ws, line, curY, notFirst =>
      let testLine := line ++ w ++ " "
      if measure testLine > maxWidth ∧ notFirst = true then
        let rest := wrapLoop measure x maxWidth lineHeight ws (w ++ " ") (curY + lineHeight) true
        (Cmd.text line x curY :: rest.1, rest.2)
      else
        wrapLoop measure x maxWidth lineHeight ws testLine curY true

/-- `wrapText(ctx, text, x, y, maxWidth, lineHeight)`. -/
noncomputable def wrapText (measure : String → ℝ) (text : String) (x y maxWidth lineHeight : ℝ) :
    List Cmd :=
  let r := wrapLoop measure x maxWidth lineHeight (text.splitOn " ") "" y false
  r.1 ++ [Cmd.text r.2.1 x r.2.2]

/-- `renderEdges()`: one solid (direct) or dashed (tag) line per edge whose
two endpoints resolve; highlighted when an endpoint is selected/hovered. -/
noncomputable def renderEdges (ns : List GNode) (es : List GEdge)
    (selected hovered : Option Nat) : List Cmd :=
  es.foldl
    (fun acc e =>
      match ns.find? (fun n => n.id == e.source), ns.find? (fun n => n.id == e.target) with
      | some s, some t =>
          let isHighlighted :=
            selected = some s.id ∨ selected = some t.id ∨
            hovered = some s.id ∨ hovered = some t.id
          acc ++ [Cmd.line s.x s.y t.x t.y (e.kind = EdgeKind.tag)
                    (decide isHighlighted)]
      | _, _ => acc)
    []

/-- `renderNodes()`: a filled circle per node — enlarged and recolored for
the selected (radius 12) and hovered (radius 10) nodes — then the label,
with a background plate unless the node is selected. -/
noncomputable def renderNodes (measure : String → ℝ) (ns : List GNode)
    (selected hovered : Option Nat) : List Cmd :=
  ns.foldl
    (fun acc n =>
      let isSelected := selected = some n.id
      let isHovered := hovered = some n.id
      let radius :=
        if isSelected then nodeRadiusSelected
        else if isHovered then nodeRadiusHovered
        else n.radius
      let fillColor :=
        if isSelected then "selected" else if isHovered then "hovered" else "default"
      let t := truncateText measure n.title (radius * 4)
      let plate :=
        if isSelected then []
        else
          [Cmd.fillRect (n.x - measure t / 2 - 4) (n.y + radius + 4) (measure t + 8) 16]
      acc ++ [Cmd.circle n.x n.y radius fillColor] ++ plate
          ++ [Cmd.text t n.x (n.y + radius + 12)])
    []

/-- `Math.round`. -/
noncomputable def jsRound (x : ℝ) : ℤ := Int.floor (x + 1 / 2)

/-- `renderNodeInfo(node)`: the fixed-size info box for the selected node. -/
noncomputable def renderNodeInfo (measure : String → ℝ) (n : GNode) (W : ℝ) : List Cmd :=
  let boxWidth : ℝ := 280
  let x := W - boxWidth - 16
  let y : ℝ := 16
  [Cmd.fillRect x y boxWidth 120, Cmd.strokeRect x y boxWidth 120,
   Cmd.text (truncateText measure n.title (boxWidth - 32)) (x + 16) (y + 16)]
  ++ wrapText measure (truncateText measure n.content (boxWidth - 32)) (x + 16) (y + 40)
       (boxWidth - 32) 14
  ++ (if 0 < n.tags.length then
        [Cmd.text ("Tags: " ++ truncateText measure
            (String.intercalate ", " (n.tags.take 3)) (boxWidth - 32)) (x + 16) (y + 90)]
      else [])

/-- `renderUI()`: the three stacked stat lines, then the info box when a
node is selected. -/
noncomputable def renderUI (measure : String → ℝ) (ns : List GNode) (es : List GEdge)
    (cam : Camera) (selected : Option Nat) (W : ℝ) : List Cmd :=
  [Cmd.text ("Notes: " ++ toString ns.length) 16 16,
   Cmd.text ("Connections: " ++ toString es.length) 16 36,
   Cmd.text ("Zoom: " ++ toString (jsRound (cam.zoom * 100)) ++ "%") 16 56]
  ++ (match selected with
      | some i =>
          match ns.find? (fun n => n.id == i) with
          | some n => renderNodeInfo measure n W
          | none => []
      | none => [])

/-- `renderEmptyState()`: the centered two-line message (drawn by
`generateGraph` when the note list is empty — not by `render`). -/
noncomputable def renderEmptyState (W H : ℝ) : List Cmd :=
  [Cmd.text "No notes to visualize" (W / 2) (H / 2 - 20),
   Cmd.text "Create some notes and link them to see the graph" (W / 2) (H / 2 + 10)]

/-- `render()`: clear, camera transform, edges, nodes, restore, UI overlay.
There is no empty check here: with zero nodes the edge and node passes
draw nothing, and the stats overlay is still drawn. -/
noncomputable def render (measure : String → ℝ) (ns : List GNode) (es : List GEdge)
    (cam : Camera) (selected hovered : Option Nat) (W H : ℝ) : List Cmd :=
  Cmd.clearRect 0 0 W H :: Cmd.save :: Cmd.translate cam.x cam.y :: Cmd.scale cam.zoom ::
  (renderEdges ns es selected hovered ++ renderNodes measure ns selected hovered
    ++ [Cmd.restore] ++ renderUI measure ns es cam selected W)

/-! ## Lifecycle (`bindEvents`, `stopAnimation`, `destroy`) -/

/-- A listener target. -/
inductive EvTarget where
  | window
  | canvas
  deriving DecidableEq, Repr

/-- The browser's listener registry together with a counter that models
allocation of fresh function objects by `.bind(this)`: every `bind` call
returns a new, distinct function. -/
structure EventEnv where
  nextId : Nat
  listeners : List (EvTarget × String × Nat)
  deriving DecidableEq, Repr

/-- `this.someHandler.bind(this)`: a fresh function object. -/
def bindFn (env : EventEnv) : EventEnv × Nat :=
  ({ env with nextId := env.nextId + 1 }, env.nextId)

/-- `target.addEventListener(ev, handler.bind(this))`. -/
def addEventListener (env : EventEnv) (t : EvTarget) (ev : String) : EventEnv :=
  let r := bindFn env
  { r.1 with listeners := r.1.listeners ++ [(t, ev, r.2)] }

/-- `target.removeEventListener(ev, f)`: removes only registrations whose
function is identical to `f`. -/
def removeEventListener (env : EventEnv) (t : EvTarget) (ev : String) (f : Nat) : EventEnv :=
  { env with listeners := env.listeners.filter fun l => decide (l ≠ (t, ev, f)) }

/-- `bindEvents()`: six mouse listeners, the window resize listener, and
three touch listeners, each bound to a fresh function object. -/
def bindEvents (env : EventEnv) : EventEnv :=
  let e := addEventListener env EvTarget.canvas "mousedown"
  let e := addEventListener e EvTarget.canvas "mousemove"
  let e := addEventListener e EvTarget.canvas "mouseup"
  let e := addEventListener e EvTarget.canvas "wheel"
  let e := addEventListener e EvTarget.canvas "click"
  let e := addEventListener e EvTarget.canvas "dblclick"
  let e := addEventListener e EvTarget.window "resize"
  let e := addEventListener e EvTarget.canvas "touchstart"
  let e := addEventListener e EvTarget.canvas "touchmove"
  addEventListener e EvTarget.canvas "touchend"

/-- The animation-loop state: the running flag and the pending frame
request handle. -/
structure AnimationState where
  running : Bool
  frame : Option Nat
  deriving DecidableEq, Repr

/-- `stopAnimation()`: clear the running flag and cancel the pending frame
request, if any (the second component is the handle passed to
`cancelAnimationFrame`). -/
def stopAnimation (a : AnimationState) : AnimationState × Option Nat :=
  ({ a with running := false }, a.frame)

/-- `destroy()`: stop the animation, then call
`window.removeEventListener('resize', this.resizeCanvas.bind(this))` — note
the fresh `.bind(this)`, and that no canvas listener is touched.  Returns
the final animation state, the cancelled frame request, and the listener
registry after the call. -/
def destroy (a : AnimationState) (env : EventEnv) :
    AnimationState × Option Nat × EventEnv :=
  let s := stopAnimation a
  let r := bindFn env
  (s.1, s.2, removeEventListener r.1 EvTarget.window "resize" r.2)

/-! ## Predicates and concrete inputs used by the theorem statements -/

/-- `e` joins the unordered pair `{i, j}`. -/
def connects (e : GEdge) (i j : Nat) : Prop :=
  (e.source = i ∧ e.target = j) ∨ (e.source = j ∧ e.target = i)

/-- Two edges join the same unordered pair. -/
def samePair (e1 e2 : GEdge) : Prop :=
  connects e1 e2.source e2.target

/-- At most one edge between any unordered pair of nodes. -/
def UniquePairs (es : List GEdge) : Prop :=
  es.Pairwise fun a b => ¬ samePair a b

/-- Some edge of `es` joins `{i, j}`. -/
def pairIn (es : List GEdge) (i j : Nat) : Prop :=
  ∃ e ∈ es, connects e i j

/-- Case-insensitive link-title resolution over the input notes (the same
lookup `generateGraph` performs over the freshly created nodes). -/
def resolveTitle (notes : List Note) (t : String) : Option Note :=
  notes.find? fun n => lowerStr n.title == lowerStr t

/-- Title resolution over nodes, projected to the identifier. -/
def resolveId (ns : List GNode) (t : String) : Option Nat :=
  (findByTitle ns t).map fun n => n.id

/-- Two graph nodes agree on every field the edge passes read. -/
def sameCore (a b : GNode) : Prop :=
  a.id = b.id ∧ a.title = b.title ∧ a.tags = b.tags ∧ a.links = b.links

/-- A graph node carries exactly the data of a note. -/
def coreOf (a : Note) (b : GNode) : Prop :=
  b.id = a.id ∧ b.title = a.title ∧ b.tags = a.tags ∧ b.links = a.links

/-- Two direct-pass states agree on node cores and on the edge list. -/
def StRel (st1 st2 : List GNode × List GEdge) : Prop :=
  List.Forall₂ sameCore st1.1 st2.1 ∧ st1.2 = st2.2

/-- The force passes change only velocities: the later node keeps the
earlier node's identifier, position and radius. -/
def PosEq (n m : GNode) : Prop :=
  m.id = n.id ∧ m.x = n.x ∧ m.y = n.y ∧ m.radius = n.radius

/-- The C2 scenario's note collection. -/
def notesABC : List Note :=
  [ { id := 1, title := "A", content := "", tags := [], links := ["B"] },
    { id := 2, title := "B", content := "", tags := ["x"], links := [] },
    { id := 3, title := "C", content := "", tags := ["x"], links := [] } ]

/-- A note collection where note 1 links to note 2 and both share a tag. -/
def notesLinkAndTag : List Note :=
  [ { id := 1, title := "A", content := "", tags := ["x"], links := ["B"] },
    { id := 2, title := "B", content := "", tags := ["x"], links := [] } ]

/-- A concrete node at the origin. -/
noncomputable def nodeS : GNode :=
  { id := 1, title := "S", content := "", tags := [], links := [],
    x := 0, y := 0, vx := 0, vy := 0, radius := 8, connections := 0 }

/-- A concrete node at (5, 0). -/
noncomputable def nodeT : GNode :=
  { id := 2, title := "T", content := "", tags := [], links := [],
    x := 5, y := 0, vx := 0, vy := 0, radius := 8, connections := 0 }

/-- A concrete direct-link edge between `nodeS` and `nodeT`. -/
noncomputable def edgeST : GEdge :=
  { source := 1, target := 2, strength := 1, kind := EdgeKind.direct, commonTags := [] }

/-- A concrete node at (400, 0). -/
noncomputable def nodeV : GNode :=
  { id := 2, title := "V", content := "", tags := [], links := [],
    x := 400, y := 0, vx := 0, vy := 0, radius := 8, connections := 0 }

/-- A concrete node at (5, 50) for the small-canvas counterexample. -/
noncomputable def nodeW : GNode :=
  { id := 1, title := "W", content := "", tags := [], links := [],
    x := 5, y := 50, vx := 0, vy := 0, radius := 8, connections := 0 }

end NoteMesh

namespace NoteMesh

/-! ## Theorems -/

/-- **C2.** For the concrete input
`notes = [{id:1,title:"A",links:["B"],tags:[]}, {id:2,title:"B",links:[],tags:["x"]},
{id:3,title:"C",links:[],tags:["x"]}]`, `generateGraph` produces exactly the
two edges (1,2) direct-link and (2,3) shared-tag, and connection counts
1, 1, 0 for nodes 1, 2, 3 — for every random placement and viewport. -/
theorem c2_generateGraph_scenario (rand : Nat → ℝ × ℝ) (W H : ℝ) :
    ((generateGraph notesABC rand W H).2).map (fun e => (e.source, e.target, e.kind)) =
      [(1, 2, EdgeKind.direct), (2, 3, EdgeKind.tag)] ∧
    ((generateGraph notesABC rand W H).1).map (fun n => (n.id, n.connections)) =
      [(1, 1), (2, 1), (3, 0)] :=
  ⟨rfl, rfl⟩

/-- **C5.** Starting from any camera zoom inside [0.1, 3], after any finite
sequence of wheel events (any mix of directions, any pointer positions),
the camera zoom remains within [0.1, 3]. -/
theorem c5_onWheel_zoom_clamped (events : List (ℝ × ℝ × ℝ)) (cam : Camera)
    (h1 : 0.1 ≤ cam.zoom) (h2 : cam.zoom ≤ 3) :
    0.1 ≤ (events.foldl (fun c e => onWheel c e.1 e.2.1 e.2.2) cam).zoom ∧
      (events.foldl (fun c e => onWheel c e.1 e.2.1 e.2.2) cam).zoom ≤ 3 := by
  induction events generalizing cam with
  | nil => exact ⟨h1, h2⟩
  | cons e es ih =>
      refine ih (onWheel cam e.1 e.2.1 e.2.2) (le_max_left _ _) ?_
      exact max_le (by norm_num) (min_le_left _ _)

/-- Witness for C5 at a concrete camera and a concrete two-event sequence. -/
theorem c5_onWheel_zoom_clamped_witness :
    0.1 ≤ (([( (0:ℝ), (0:ℝ), (1:ℝ)), ((0:ℝ), (0:ℝ), (-1:ℝ))]).foldl
        (fun c e => onWheel c e.1 e.2.1 e.2.2) (Camera.mk 0 0 1)).zoom ∧
      (([( (0:ℝ), (0:ℝ), (1:ℝ)), ((0:ℝ), (0:ℝ), (-1:ℝ))]).foldl
        (fun c e => onWheel c e.1 e.2.1 e.2.2) (Camera.mk 0 0 1)).zoom ≤ 3 :=
  c5_onWheel_zoom_clamped _ _ (by norm_num) (by norm_num)

/-- **C8** (code evaluation). After `init` registers its ten listeners,
`destroy()` does clear the running flag and cancel the pending frame
request, but the listener registry is left exactly as `bindEvents` built
it: `removeEventListener('resize', this.resizeCanvas.bind(this))` passes a
freshly bound function that matches no registration, and the canvas
pointer/wheel/touch listeners are never removed at all. -/
theorem c8_destroy_keeps_listeners :
    (destroy ⟨true, some 7⟩ (bindEvents ⟨0, []⟩)).1.running = false ∧
    (destroy ⟨true, some 7⟩ (bindEvents ⟨0, []⟩)).2.1 = some 7 ∧
    (destroy ⟨true, some 7⟩ (bindEvents ⟨0, []⟩)).2.2.listeners =
      (bindEvents ⟨0, []⟩).listeners ∧
    (EvTarget.window, "resize", 6) ∈
      (destroy ⟨true, some 7⟩ (bindEvents ⟨0, []⟩)).2.2.listeners ∧
    (EvTarget.canvas, "mousedown", 0) ∈
      (destroy ⟨true, some 7⟩ (bindEvents ⟨0, []⟩)).2.2.listeners := by
  refine ⟨rfl, rfl, rfl, ?_, ?_⟩ <;> decide

end NoteMesh

namespace NoteMesh

/-- Forall₂ transports membership on the left to a related member on the right. -/
theorem mem_forall₂ {α β : Type _} {R : α → β → Prop} {l₁ : List α} {l₂ : List β}
    (h : List.Forall₂ R l₁ l₂) {a : α} (ha : a ∈ l₁) : ∃ b ∈ l₂, R a b := by
  induction h with
  | nil => cases ha
  | cons hr _ ih =>
      rcases List.mem_cons.1 ha with rfl | ha'
      · exact ⟨_, List.mem_cons_self _ _, hr⟩
      · obtain ⟨b, hb, hab⟩ := ih ha'
        exact ⟨b, List.mem_cons_of_mem _ hb, hab⟩

/-- `find?` over two pointwise-related lists with matching predicates
returns related results. -/
theorem find?_forall₂ {α β : Type _} {R : α → β → Prop} {p : α → Bool} {q : β → Bool}
    (hpq : ∀ a b, R a b → p a = q b) {l₁ : List α} {l₂ : List β}
    (h : List.Forall₂ R l₁ l₂) : Option.Rel R (l₁.find? p) (l₂.find? q) := by
  induction h with
  | nil => exact Option.Rel.none
  | cons hr _ ih =>
      rename_i a b l₁' l₂' _
      by_cases hpa : p a = true
      · rw [List.find?_cons_of_pos _ hpa,
          List.find?_cons_of_pos _ (by rw [← hpq a b hr]; exact hpa)]
        exact Option.Rel.some hr
      · rw [List.find?_cons_of_neg _ hpa,
          List.find?_cons_of_neg _ (by rw [← hpq a b hr]; exact hpa)]
        exact ih

theorem sameCore_refl (a : GNode) : sameCore a a := ⟨rfl, rfl, rfl, rfl⟩

theorem sameCore_trans {a b c : GNode} (h1 : sameCore a b) (h2 : sameCore b c) :
    sameCore a c :=
  ⟨h1.1.trans h2.1, h1.2.1.trans h2.2.1, h1.2.2.1.trans h2.2.2.1, h1.2.2.2.trans h2.2.2.2⟩

theorem forall₂_sameCore_refl (l : List GNode) : List.Forall₂ sameCore l l :=
  List.forall₂_same.2 fun x _ => sameCore_refl x

theorem sameCore_bump_self (b : GNode) (i : Nat) :
    sameCore b (if b.id = i then { b with connections := b.connections + 1 } else b) := by
  by_cases h : b.id = i
  · rw [if_pos h]; exact ⟨rfl, rfl, rfl, rfl⟩
  · rw [if_neg h]; exact sameCore_refl b

/-- `bumpConn` does not change node cores: relatedness to any fixed list is
preserved. -/
theorem forall₂_bumpConn_right {l₀ l : List GNode}
    (h : List.Forall₂ sameCore l₀ l) (i : Nat) :
    List.Forall₂ sameCore l₀ (bumpConn l i) := by
  rw [bumpConn, List.forall₂_map_right_iff]
  exact h.imp fun a b hab => sameCore_trans hab (sameCore_bump_self b i)

/-- `findByTitle` looks only at titles, hence respects `sameCore`. -/
theorem findByTitle_rel {l₁ l₂ : List GNode} (h : List.Forall₂ sameCore l₁ l₂)
    (t : String) : Option.Rel sameCore (findByTitle l₁ t) (findByTitle l₂ t) :=
  find?_forall₂ (fun a b hab => by simp only [findByTitle, hab.2.1]) h

/-- Mapping related options with functions that agree on related values. -/
theorem optionRel_map_eq {α β γ : Type _} {R : α → β → Prop} {f : α → γ} {g : β → γ}
    (hfg : ∀ a b, R a b → f a = g b) :
    ∀ {o₁ : Option α} {o₂ : Option β}, Option.Rel R o₁ o₂ → o₁.map f = o₂.map g
  | _, _, Option.Rel.none => rfl
  | _, _, Option.Rel.some h => by simp [hfg _ _ h]

theorem resolveId_congr {l₁ l₂ : List GNode} (h : List.Forall₂ sameCore l₁ l₂)
    (t : String) : resolveId l₁ t = resolveId l₂ t :=
  optionRel_map_eq (fun _ _ hab => hab.1) (findByTitle_rel h t)

end NoteMesh

namespace NoteMesh

theorem sameCore_symm {a b : GNode} (h : sameCore a b) : sameCore b a :=
  ⟨h.1.symm, h.2.1.symm, h.2.2.1.symm, h.2.2.2.symm⟩

theorem forall₂_bumpConn_both {l₁ l₂ : List GNode}
    (h : List.Forall₂ sameCore l₁ l₂) (i : Nat) :
    List.Forall₂ sameCore (bumpConn l₁ i) (bumpConn l₂ i) := by
  rw [bumpConn, bumpConn, List.forall₂_map_left_iff, List.forall₂_map_right_iff]
  exact h.imp fun a b hab =>
    sameCore_trans (sameCore_symm (sameCore_bump_self a i))
      (sameCore_trans hab (sameCore_bump_self b i))

theorem processLink_rel {st₁ st₂ : List GNode × List GEdge} (h : StRel st₁ st₂)
    (i : Nat) (t : String) : StRel (processLink st₁ i t) (processLink st₂ i t) := by
  obtain ⟨hns, hes⟩ := h
  have hrel := findByTitle_rel hns t
  unfold processLink
  cases hfind₁ : findByTitle st₁.1 t with
  | none =>
      rw [hfind₁] at hrel
      cases hfind₂ : findByTitle st₂.1 t with
      | none => exact ⟨hns, hes⟩
      | some b => rw [hfind₂] at hrel; cases hrel
  | some a =>
      rw [hfind₁] at hrel
      cases hfind₂ : findByTitle st₂.1 t with
      | none => rw [hfind₂] at hrel; cases hrel
      | some b =>
          rw [hfind₂] at hrel
          have hab : sameCore a b := by cases hrel; assumption
          dsimp only
          rw [hab.1, hes]
          by_cases hne : i ≠ b.id
          · rw [if_pos hne, if_pos hne]
            cases heb : edgeBetween st₂.2 i b.id with
            | some e => exact ⟨hns, hes⟩
            | none =>
                exact ⟨forall₂_bumpConn_both (forall₂_bumpConn_both hns i) b.id, rfl⟩
          · rw [if_neg hne, if_neg hne]
            exact ⟨hns, hes⟩

theorem foldl_processLink_rel (links : List String) (i : Nat)
    {st₁ st₂ : List GNode × List GEdge} (h : StRel st₁ st₂) :
    StRel (links.foldl (fun s t => processLink s i t) st₁)
          (links.foldl (fun s t => processLink s i t) st₂) := by
  induction links generalizing st₁ st₂ with
  | nil => exact h
  | cons t ts ih => exact ih (processLink_rel h i t)

theorem processSource_rel {st₁ st₂ : List GNode × List GEdge} (h : StRel st₁ st₂)
    {a b : GNode} (hab : sameCore a b) :
    StRel (processSource st₁ a) (processSource st₂ b) := by
  unfold processSource
  rw [hab.2.2.2, hab.1]
  exact foldl_processLink_rel _ _ h

theorem foldl_processSource_rel {l₁ l₂ : List GNode}
    (hl : List.Forall₂ sameCore l₁ l₂) :
    ∀ {st₁ st₂ : List GNode × List GEdge}, StRel st₁ st₂ →
      StRel (l₁.foldl processSource st₁) (l₂.foldl processSource st₂) := by
  induction hl with
  | nil => exact fun h => h
  | cons hab _ ih => exact fun h => ih (processSource_rel h hab)

theorem addDirectEdges_rel {l₁ l₂ : List GNode} (hl : List.Forall₂ sameCore l₁ l₂) :
    StRel (addDirectEdges l₁) (addDirectEdges l₂) :=
  foldl_processSource_rel hl ⟨hl, rfl⟩

theorem tagEdgeStep_congr {a₁ a₂ b₁ b₂ : GNode} (ha : sameCore a₁ a₂)
    (hb : sameCore b₁ b₂) (es : List GEdge) :
    tagEdgeStep a₁ b₁ es = tagEdgeStep a₂ b₂ es := by
  unfold tagEdgeStep
  rw [ha.1, hb.1, ha.2.2.1, hb.2.2.1]

theorem foldl_tagInner_congr {l₁ l₂ : List GNode} (hl : List.Forall₂ sameCore l₁ l₂)
    {a₁ a₂ : GNode} (ha : sameCore a₁ a₂) (es : List GEdge) :
    l₁.foldl (fun acc b => tagEdgeStep a₁ b acc) es
      = l₂.foldl (fun acc b => tagEdgeStep a₂ b acc) es := by
  induction hl generalizing es with
  | nil => rfl
  | cons hb _ ih =>
      simp only [List.foldl_cons]
      rw [tagEdgeStep_congr ha hb es]
      exact ih _

theorem foldl_tagOuter_congr {f₁ f₂ : List GNode} (hf : List.Forall₂ sameCore f₁ f₂)
    {o₁ o₂ : List GNode} (ho : List.Forall₂ sameCore o₁ o₂) :
    ∀ es : List GEdge,
      o₁.foldl (fun acc a => f₁.foldl (fun acc2 b => tagEdgeStep a b acc2) acc) es
        = o₂.foldl (fun acc a => f₂.foldl (fun acc2 b => tagEdgeStep a b acc2) acc) es := by
  induction ho with
  | nil => intro es; rfl
  | cons ha _ ih =>
      intro es
      simp only [List.foldl_cons]
      rw [foldl_tagInner_congr hf ha es]
      exact ih _

theorem addTagEdges_congr {l₁ l₂ : List GNode} (hl : List.Forall₂ sameCore l₁ l₂)
    (es : List GEdge) : addTagEdges l₁ es = addTagEdges l₂ es :=
  foldl_tagOuter_congr hl hl es

theorem mkNodes_forall₂ (r₁ r₂ : Nat → ℝ × ℝ) (W₁ H₁ W₂ H₂ : ℝ) :
    ∀ (i j : Nat) (notes : List Note),
      List.Forall₂ sameCore (mkNodes r₁ W₁ H₁ i notes) (mkNodes r₂ W₂ H₂ j notes)
  | _, _, [] => List.Forall₂.nil
  | i, j, _ :: rest =>
      List.Forall₂.cons ⟨rfl, rfl, rfl, rfl⟩
        (mkNodes_forall₂ r₁ r₂ W₁ H₁ W₂ H₂ (i + 1) (j + 1) rest)

theorem mkNodes_coreOf (r : Nat → ℝ × ℝ) (W H : ℝ) :
    ∀ (i : Nat) (notes : List Note),
      List.Forall₂ coreOf notes (mkNodes r W H i notes)
  | _, [] => List.Forall₂.nil
  | i, _ :: rest =>
      List.Forall₂.cons ⟨rfl, rfl, rfl, rfl⟩ (mkNodes_coreOf r W H (i + 1) rest)

/-- **C9.** Regenerating the graph from an unchanged note collection
produces the same edge list (same pairs, kinds, strengths and common tags)
regardless of the random positions and canvas size used each time. -/
theorem c9_regenerate_same_edges (notes : List Note) (r₁ r₂ : Nat → ℝ × ℝ)
    (W₁ H₁ W₂ H₂ : ℝ) :
    (generateGraph notes r₁ W₁ H₁).2 = (generateGraph notes r₂ W₂ H₂).2 := by
  unfold generateGraph
  by_cases h : notes.length = 0
  · rw [if_pos h, if_pos h]
  · rw [if_neg h, if_neg h]
    have hst := addDirectEdges_rel (mkNodes_forall₂ r₁ r₂ W₁ H₁ W₂ H₂ 0 0 notes)
    show addTagEdges (addDirectEdges (mkNodes r₁ W₁ H₁ 0 notes)).1
            (addDirectEdges (mkNodes r₁ W₁ H₁ 0 notes)).2
        = addTagEdges (addDirectEdges (mkNodes r₂ W₂ H₂ 0 notes)).1
            (addDirectEdges (mkNodes r₂ W₂ H₂ 0 notes)).2
    rw [hst.2]
    exact addTagEdges_congr hst.1 _

end NoteMesh

namespace NoteMesh

theorem connects_check (e : GEdge) (i j : Nat) :
    ((e.source == i && e.target == j) || (e.source == j && e.target == i)) = true
      ↔ connects e i j := by
  simp [connects, Bool.or_eq_true, Bool.and_eq_true, beq_iff_eq]

theorem edgeBetween_none_iff {es : List GEdge} {i j : Nat} :
    edgeBetween es i j = none ↔ ∀ e ∈ es, ¬ connects e i j := by
  unfold edgeBetween
  rw [List.find?_eq_none]
  simp only [connects_check]

theorem edgeBetween_some {es : List GEdge} {i j : Nat} {e : GEdge}
    (h : edgeBetween es i j = some e) : e ∈ es ∧ connects e i j := by
  unfold edgeBetween at h
  have h1 := List.find?_some h
  exact ⟨List.mem_of_find?_eq_some h, (connects_check e i j).1 h1⟩

theorem connects_symm {e : GEdge} {i j : Nat} (h : connects e i j) : connects e j i :=
  h.symm

theorem samePair_of_connects {e₁ e₂ : GEdge} {i j : Nat}
    (h₁ : connects e₁ i j) (h₂ : connects e₂ i j) : samePair e₁ e₂ := by
  rcases h₂ with ⟨hs, ht⟩ | ⟨hs, ht⟩
  · rw [samePair, hs, ht]; exact h₁
  · rw [samePair, hs, ht]; exact connects_symm h₁

theorem samePair_symm {e₁ e₂ : GEdge} (h : samePair e₁ e₂) : samePair e₂ e₁ := by
  rcases h with ⟨h1, h2⟩ | ⟨h1, h2⟩
  · rw [samePair, h1, h2]; exact Or.inl ⟨rfl, rfl⟩
  · rw [samePair, h1, h2]; exact Or.inr ⟨rfl, rfl⟩

theorem uniquePairs_append {es : List GEdge} (h : UniquePairs es) {i j : Nat}
    (hno : ∀ e ∈ es, ¬ connects e i j) (e' : GEdge)
    (hs : e'.source = i) (ht : e'.target = j) : UniquePairs (es ++ [e']) := by
  rw [UniquePairs, List.pairwise_append]
  refine ⟨h, List.pairwise_singleton _ _, ?_⟩
  intro a ha b hb hsp
  rw [List.mem_singleton] at hb
  subst hb
  rw [samePair, hs, ht] at hsp
  exact hno a ha hsp

theorem pairIn_append {es l : List GEdge} {i j : Nat} (h : pairIn es i j) :
    pairIn (es ++ l) i j := by
  obtain ⟨e, he, hc⟩ := h
  exact ⟨e, List.mem_append_left _ he, hc⟩

theorem processLink_uniquePairs {st : List GNode × List GEdge} (h : UniquePairs st.2)
    (i : Nat) (t : String) : UniquePairs (processLink st i t).2 := by
  unfold processLink
  cases hf : findByTitle st.1 t with
  | none => exact h
  | some target =>
      dsimp only
      by_cases hne : i ≠ target.id
      · rw [if_pos hne]
        cases heb : edgeBetween st.2 i target.id with
        | some e => exact h
        | none => exact uniquePairs_append h (edgeBetween_none_iff.1 heb) _ rfl rfl
      · rw [if_neg hne]; exact h

theorem processLink_mono (st : List GNode × List GEdge) (i : Nat) (t : String) :
    ∃ l, (processLink st i t).2 = st.2 ++ l := by
  unfold processLink
  cases hf : findByTitle st.1 t with
  | none => exact ⟨[], (List.append_nil _).symm⟩
  | some target =>
      dsimp only
      by_cases hne : i ≠ target.id
      · rw [if_pos hne]
        cases heb : edgeBetween st.2 i target.id with
        | some e => exact ⟨[], (List.append_nil _).symm⟩
        | none => exact ⟨_, rfl⟩
      · rw [if_neg hne]; exact ⟨[], (List.append_nil _).symm⟩

theorem processLink_core {ns₀ : List GNode} {st : List GNode × List GEdge}
    (h : List.Forall₂ sameCore ns₀ st.1) (i : Nat) (t : String) :
    List.Forall₂ sameCore ns₀ (processLink st i t).1 := by
  unfold processLink
  cases hf : findByTitle st.1 t with
  | none => exact h
  | some target =>
      dsimp only
      by_cases hne : i ≠ target.id
      · rw [if_pos hne]
        cases heb : edgeBetween st.2 i target.id with
        | some e => exact h
        | none => exact forall₂_bumpConn_right (forall₂_bumpConn_right h i) target.id
      · rw [if_neg hne]; exact h

theorem processLink_direct {st : List GNode × List GEdge}
    (h : ∀ e ∈ st.2, e.kind = EdgeKind.direct) (i : Nat) (t : String) :
    ∀ e ∈ (processLink st i t).2, e.kind = EdgeKind.direct := by
  unfold processLink
  cases hf : findByTitle st.1 t with
  | none => exact h
  | some target =>
      dsimp only
      by_cases hne : i ≠ target.id
      · rw [if_pos hne]
        cases heb : edgeBetween st.2 i target.id with
        | some e => exact h
        | none =>
            intro e he
            rcases List.mem_append.1 he with h1 | h2
            · exact h e h1
            · rw [List.mem_singleton] at h2; subst h2; rfl
      · rw [if_neg hne]; exact h

theorem processLink_complete {st : List GNode × List GEdge} {t : String}
    {b : Nat} (hres : resolveId st.1 t = some b) {i : Nat} (hne : i ≠ b) :
    pairIn (processLink st i t).2 i b := by
  unfold processLink
  cases hf : findByTitle st.1 t with
  | none => rw [resolveId, hf] at hres; cases hres
  | some target =>
      rw [resolveId, hf, Option.map_some'] at hres
      have hid : target.id = b := Option.some.inj hres
      dsimp only
      rw [if_pos (by rw [hid]; exact hne)]
      cases heb : edgeBetween st.2 i target.id with
      | some e =>
          obtain ⟨hmem, hcon⟩ := edgeBetween_some heb
          rw [hid] at hcon
          exact ⟨e, hmem, hcon⟩
      | none =>
          refine ⟨_, List.mem_append_right _ (List.mem_singleton_self _), ?_⟩
          exact Or.inl ⟨rfl, hid⟩

end NoteMesh

namespace NoteMesh

theorem foldl_processLink_mono (links : List String) (i : Nat) :
    ∀ st : List GNode × List GEdge,
      ∃ l, ((links.foldl (fun s u => processLink s i u) st)).2 = st.2 ++ l := by
  induction links with
  | nil => exact fun st => ⟨[], (List.append_nil _).symm⟩
  | cons u us ih =>
      intro st
      obtain ⟨l₁, h₁⟩ := processLink_mono st i u
      obtain ⟨l₂, h₂⟩ := ih (processLink st i u)
      exact ⟨l₁ ++ l₂, by rw [List.foldl_cons, h₂, h₁, List.append_assoc]⟩

theorem foldl_processLink_core {ns₀ : List GNode} (links : List String) (i : Nat) :
    ∀ {st : List GNode × List GEdge}, List.Forall₂ sameCore ns₀ st.1 →
      List.Forall₂ sameCore ns₀ ((links.foldl (fun s u => processLink s i u) st)).1 := by
  induction links with
  | nil => exact fun h => h
  | cons u us ih => exact fun h => ih (processLink_core h i u)

theorem foldl_processLink_uniquePairs (links : List String) (i : Nat) :
    ∀ {st : List GNode × List GEdge}, UniquePairs st.2 →
      UniquePairs ((links.foldl (fun s u => processLink s i u) st)).2 := by
  induction links with
  | nil => exact fun h => h
  | cons u us ih => exact fun h => ih (processLink_uniquePairs h i u)

theorem foldl_processLink_direct (links : List String) (i : Nat) :
    ∀ {st : List GNode × List GEdge}, (∀ e ∈ st.2, e.kind = EdgeKind.direct) →
      ∀ e ∈ ((links.foldl (fun s u => processLink s i u) st)).2,
        e.kind = EdgeKind.direct := by
  induction links with
  | nil => exact fun h => h
  | cons u us ih => exact fun h => ih (processLink_direct h i u)

theorem processSource_mono (st : List GNode × List GEdge) (a : GNode) :
    ∃ l, (processSource st a).2 = st.2 ++ l :=
  foldl_processLink_mono a.links a.id st

theorem processSource_core {ns₀ : List GNode} {st : List GNode × List GEdge}
    (h : List.Forall₂ sameCore ns₀ st.1) (a : GNode) :
    List.Forall₂ sameCore ns₀ (processSource st a).1 :=
  foldl_processLink_core a.links a.id h

theorem foldl_processSource_mono (l : List GNode) :
    ∀ st : List GNode × List GEdge, ∃ l2, ((l.foldl processSource st)).2 = st.2 ++ l2 := by
  induction l with
  | nil => exact fun st => ⟨[], (List.append_nil _).symm⟩
  | cons c cs ih =>
      intro st
      obtain ⟨l₁, h₁⟩ := processSource_mono st c
      obtain ⟨l₂, h₂⟩ := ih (processSource st c)
      exact ⟨l₁ ++ l₂, by rw [List.foldl_cons, h₂, h₁, List.append_assoc]⟩

theorem foldl_processLink_complete {ns₀ : List GNode} (links : List String) :
    ∀ {st : List GNode × List GEdge}, List.Forall₂ sameCore ns₀ st.1 →
    ∀ {t : String} {b : Nat}, t ∈ links → resolveId ns₀ t = some b →
    ∀ {i : Nat}, i ≠ b →
    pairIn ((links.foldl (fun s u => processLink s i u) st)).2 i b := by
  induction links with
  | nil => intro st _ t b ht; cases ht
  | cons u us ih =>
      intro st hcore t b ht hres i hne
      rw [List.foldl_cons]
      rcases List.mem_cons.1 ht with rfl | ht'
      · have h1 : pairIn (processLink st i t).2 i b :=
          processLink_complete (by rw [← resolveId_congr hcore t]; exact hres) hne
        obtain ⟨l, hl⟩ := foldl_processLink_mono us i (processLink st i t)
        rw [hl]
        exact pairIn_append h1
      · exact ih (processLink_core hcore i u) ht' hres hne

theorem foldl_processSource_complete {ns₀ : List GNode} (l : List GNode) :
    ∀ {st : List GNode × List GEdge}, List.Forall₂ sameCore ns₀ st.1 →
    ∀ {a : GNode} {t : String} {b : Nat},
      a ∈ l → t ∈ a.links → resolveId ns₀ t = some b → a.id ≠ b →
      pairIn ((l.foldl processSource st)).2 a.id b := by
  induction l with
  | nil => intro st _ a t b ha; cases ha
  | cons c cs ih =>
      intro st hcore a t b ha ht hres hne
      rw [List.foldl_cons]
      rcases List.mem_cons.1 ha with rfl | ha'
      · have h1 : pairIn (processSource st a).2 a.id b :=
          foldl_processLink_complete a.links hcore ht hres hne
        obtain ⟨l₂, hl⟩ := foldl_processSource_mono cs (processSource st a)
        rw [hl]
        exact pairIn_append h1
      · exact ih (processSource_core hcore c) ha' ht hres hne

theorem foldl_processSource_uniquePairs (l : List GNode) :
    ∀ {st : List GNode × List GEdge}, UniquePairs st.2 →
      UniquePairs ((l.foldl processSource st)).2 := by
  induction l with
  | nil => exact fun h => h
  | cons c cs ih => exact fun h => ih (foldl_processLink_uniquePairs c.links c.id h)

theorem foldl_processSource_direct (l : List GNode) :
    ∀ {st : List GNode × List GEdge}, (∀ e ∈ st.2, e.kind = EdgeKind.direct) →
      ∀ e ∈ ((l.foldl processSource st)).2, e.kind = EdgeKind.direct := by
  induction l with
  | nil => exact fun h => h
  | cons c cs ih => exact fun h => ih (foldl_processLink_direct c.links c.id h)

theorem addDirectEdges_uniquePairs (ns : List GNode) : UniquePairs (addDirectEdges ns).2 :=
  foldl_processSource_uniquePairs ns List.Pairwise.nil

theorem addDirectEdges_direct (ns : List GNode) :
    ∀ e ∈ (addDirectEdges ns).2, e.kind = EdgeKind.direct :=
  foldl_processSource_direct ns (fun e he => absurd he (List.not_mem_nil e))

theorem addDirectEdges_complete {ns : List GNode} {a : GNode} {t : String} {b : Nat}
    (ha : a ∈ ns) (ht : t ∈ a.links) (hres : resolveId ns t = some b)
    (hne : a.id ≠ b) : pairIn (addDirectEdges ns).2 a.id b :=
  foldl_processSource_complete ns (forall₂_sameCore_refl ns) ha ht hres hne

theorem tagEdgeStep_mono (a b : GNode) (es : List GEdge) :
    ∃ l, tagEdgeStep a b es = es ++ l := by
  unfold tagEdgeStep
  by_cases h1 : a.id ≠ b.id
  · rw [if_pos h1]
    dsimp only
    by_cases h2 : 0 < (a.tags.filter fun tg => b.tags.contains tg).length
    · rw [if_pos h2]
      cases heb : edgeBetween es a.id b.id with
      | some e => exact ⟨[], (List.append_nil _).symm⟩
      | none => exact ⟨_, rfl⟩
    · rw [if_neg h2]; exact ⟨[], (List.append_nil _).symm⟩
  · rw [if_neg h1]; exact ⟨[], (List.append_nil _).symm⟩

theorem tagEdgeStep_uniquePairs (a b : GNode) {es : List GEdge} (h : UniquePairs es) :
    UniquePairs (tagEdgeStep a b es) := by
  unfold tagEdgeStep
  by_cases h1 : a.id ≠ b.id
  · rw [if_pos h1]
    dsimp only
    by_cases h2 : 0 < (a.tags.filter fun tg => b.tags.contains tg).length
    · rw [if_pos h2]
      cases heb : edgeBetween es a.id b.id with
      | some e => exact h
      | none => exact uniquePairs_append h (edgeBetween_none_iff.1 heb) _ rfl rfl
    · rw [if_neg h2]; exact h
  · rw [if_neg h1]; exact h

theorem foldl_tagInner_mono (l : List GNode) (a : GNode) :
    ∀ es : List GEdge, ∃ l2,
      l.foldl (fun acc b => tagEdgeStep a b acc) es = es ++ l2 := by
  induction l with
  | nil => exact fun es => ⟨[], (List.append_nil _).symm⟩
  | cons c cs ih =>
      intro es
      obtain ⟨l₁, h₁⟩ := tagEdgeStep_mono a c es
      obtain ⟨l₂, h₂⟩ := ih (tagEdgeStep a c es)
      exact ⟨l₁ ++ l₂, by rw [List.foldl_cons, h₂, h₁, List.append_assoc]⟩

theorem foldl_tagInner_uniquePairs (l : List GNode) (a : GNode) :
    ∀ {es : List GEdge}, UniquePairs es →
      UniquePairs (l.foldl (fun acc b => tagEdgeStep a b acc) es) := by
  induction l with
  | nil => exact fun h => h
  | cons c cs ih => exact fun h => ih (tagEdgeStep_uniquePairs a c h)

theorem foldl_tagOuter_mono (full : List GNode) (outer : List GNode) :
    ∀ es : List GEdge, ∃ l,
      outer.foldl (fun acc a => full.foldl (fun acc2 b => tagEdgeStep a b acc2) acc) es
        = es ++ l := by
  induction outer with
  | nil => exact fun es => ⟨[], (List.append_nil _).symm⟩
  | cons c cs ih =>
      intro es
      obtain ⟨l₁, h₁⟩ := foldl_tagInner_mono full c es
      obtain ⟨l₂, h₂⟩ := ih (full.foldl (fun acc2 b => tagEdgeStep c b acc2) es)
      exact ⟨l₁ ++ l₂, by rw [List.foldl_cons, h₂, h₁, List.append_assoc]⟩

theorem addTagEdges_mono (ns : List GNode) (es : List GEdge) :
    ∃ l, addTagEdges ns es = es ++ l :=
  foldl_tagOuter_mono ns ns es

theorem foldl_tagOuter_uniquePairs (full : List GNode) (outer : List GNode) :
    ∀ {es : List GEdge}, UniquePairs es →
      UniquePairs
        (outer.foldl (fun acc a => full.foldl (fun acc2 b => tagEdgeStep a b acc2) acc) es) := by
  induction outer with
  | nil => exact fun h => h
  | cons c cs ih => exact fun h => ih (foldl_tagInner_uniquePairs full c h)

theorem addTagEdges_uniquePairs (ns : List GNode) {es : List GEdge} (h : UniquePairs es) :
    UniquePairs (addTagEdges ns es) :=
  foldl_tagOuter_uniquePairs ns ns h

theorem generateGraph_uniquePairs (notes : List Note) (rand : Nat → ℝ × ℝ) (W H : ℝ) :
    UniquePairs (generateGraph notes rand W H).2 := by
  unfold generateGraph
  by_cases h : notes.length = 0
  · rw [if_pos h]; exact List.Pairwise.nil
  · rw [if_neg h]
    exact addTagEdges_uniquePairs _ (addDirectEdges_uniquePairs _)

theorem resolveId_of_resolveTitle {notes : List Note} {ns : List GNode} {t : String}
    (hcore : List.Forall₂ coreOf notes ns) {b : Note}
    (h : resolveTitle notes t = some b) : resolveId ns t = some b.id := by
  have hrel := find?_forall₂ (R := coreOf)
      (p := fun n : Note => lowerStr n.title == lowerStr t)
      (q := fun n : GNode => lowerStr n.title == lowerStr t)
      (fun a g hag => by simp only [hag.2.1]) hcore
  rw [resolveTitle] at h
  rw [h] at hrel
  rw [resolveId, findByTitle]
  cases hfind : ns.find? (fun n : GNode => lowerStr n.title == lowerStr t) with
  | none => rw [hfind] at hrel; cases hrel
  | some g =>
      rw [hfind] at hrel
      have hbg : coreOf b g := by cases hrel; assumption
      rw [Option.map_some', hbg.1]

end NoteMesh

namespace NoteMesh

/-- **C1.** For every note collection: (1) after `generateGraph` there is at
most one edge between any unordered pair of nodes; (2) when a note's link
resolves to another note (case-insensitively, first match, non-self) — in
particular when the two also share a tag — the single edge between the two
identifiers is of kind direct-link, never shared-tag. -/
theorem c1_unique_edge_and_direct_precedence :
    (∀ (notes : List Note) (rand : Nat → ℝ × ℝ) (W H : ℝ),
        UniquePairs (generateGraph notes rand W H).2) ∧
    (∀ (notes : List Note) (rand : Nat → ℝ × ℝ) (W H : ℝ) (a b : Note) (t : String),
        a ∈ notes → t ∈ a.links → resolveTitle notes t = some b → a.id ≠ b.id →
        (∃ tg, tg ∈ a.tags ∧ tg ∈ b.tags) →
        (∃ e ∈ (generateGraph notes rand W H).2,
            connects e a.id b.id ∧ e.kind = EdgeKind.direct) ∧
        ∀ e ∈ (generateGraph notes rand W H).2,
            connects e a.id b.id → e.kind = EdgeKind.direct) := by
  refine ⟨generateGraph_uniquePairs, ?_⟩
  intro notes rand W H a b t ha ht hres hne hshare
  have hlen : ¬ notes.length = 0 := by
    intro h0
    rw [List.length_eq_zero] at h0
    subst h0
    cases ha
  have hUPfull := generateGraph_uniquePairs notes rand W H
  unfold generateGraph at hUPfull ⊢
  rw [if_neg hlen] at hUPfull ⊢
  dsimp only at hUPfull ⊢
  have hcoreAll : List.Forall₂ coreOf notes (mkNodes rand W H 0 notes) :=
    mkNodes_coreOf rand W H 0 notes
  obtain ⟨ga, hga, hcA⟩ := mem_forall₂ hcoreAll ha
  have hresId : resolveId (mkNodes rand W H 0 notes) t = some b.id :=
    resolveId_of_resolveTitle hcoreAll hres
  have hta : t ∈ ga.links := by rw [hcA.2.2.2]; exact ht
  have hneg : ga.id ≠ b.id := by rw [hcA.1]; exact hne
  have hdir : pairIn (addDirectEdges (mkNodes rand W H 0 notes)).2 ga.id b.id :=
    addDirectEdges_complete hga hta hresId hneg
  obtain ⟨l, hl⟩ :=
    addTagEdges_mono (addDirectEdges (mkNodes rand W H 0 notes)).1
      (addDirectEdges (mkNodes rand W H 0 notes)).2
  obtain ⟨e₀, he₀mem, he₀con⟩ := hdir
  have he₀dir : e₀.kind = EdgeKind.direct := addDirectEdges_direct _ e₀ he₀mem
  have he₀memFinal :
      e₀ ∈ addTagEdges (addDirectEdges (mkNodes rand W H 0 notes)).1
            (addDirectEdges (mkNodes rand W H 0 notes)).2 := by
    rw [hl]
    exact List.mem_append_left _ he₀mem
  have hcon' : connects e₀ a.id b.id := by rw [← hcA.1]; exact he₀con
  refine ⟨⟨e₀, he₀memFinal, hcon', he₀dir⟩, ?_⟩
  intro e he hecon
  rcases eq_or_ne e e₀ with rfl | hnee
  · exact he₀dir
  · exfalso
    have hsym : Symmetric fun x y : GEdge => ¬ samePair x y :=
      fun x y hxy hyx => hxy (samePair_symm hyx)
    exact hUPfull.forall hsym he he₀memFinal hnee (samePair_of_connects hecon hcon')

/-- Witness for C1 at a concrete collection where note 1 links to note 2
and the two also share the tag "x". -/
theorem c1_unique_edge_witness :
    (∃ e ∈ (generateGraph notesLinkAndTag (fun _ => ((0:ℝ), (0:ℝ))) 100 100).2,
        connects e 1 2 ∧ e.kind = EdgeKind.direct) ∧
    ∀ e ∈ (generateGraph notesLinkAndTag (fun _ => ((0:ℝ), (0:ℝ))) 100 100).2,
        connects e 1 2 → e.kind = EdgeKind.direct := by
  have h := c1_unique_edge_and_direct_precedence.2 notesLinkAndTag
      (fun _ => ((0:ℝ), (0:ℝ))) 100 100
      ⟨1, "A", "", ["x"], ["B"]⟩ ⟨2, "B", "", ["x"], []⟩ "B"
      (by simp [notesLinkAndTag]) (by simp) rfl (by simp)
      ⟨"x", by simp, by simp⟩
  exact h

end NoteMesh

namespace NoteMesh

/-- **C3.** In the spring pass, for an edge whose two resolved endpoints are
at Euclidean distance `d > 0`: the velocity kick applied to the source (and
with opposite sign to the target) is directed along the line between the
endpoints, has magnitude `|attraction × (d − targetDistance) × strength|`
with `targetDistance = maxDistance` for direct-link edges and
`1.5 × maxDistance` for shared-tag edges, and its radial component
`attraction × (d − targetDistance) × strength × d` is positive (attractive)
exactly when `d > targetDistance` and negative (repulsive) exactly when
`d < targetDistance` (for positive attraction and strength). -/
theorem c3_spring_force (cfg : PhysicsConfig) (ns : List GNode) (e : GEdge)
    (s t : GNode) (d dx dy targetDistance force fx fy : ℝ)
    (hs : ns.find? (fun n => n.id == e.source) = some s)
    (ht : ns.find? (fun n => n.id == e.target) = some t)
    (hdx : dx = t.x - s.x) (hdy : dy = t.y - s.y)
    (hd_def : d = Real.sqrt (dx * dx + dy * dy)) (hd : 0 < d)
    (htarget : targetDistance =
      (if e.kind = EdgeKind.tag then cfg.maxDistance * 1.5 else cfg.maxDistance))
    (hforce : force = cfg.attraction * (d - targetDistance) * e.strength)
    (hfx : fx = dx / d * force) (hfy : fy = dy / d * force) :
    (applyEdgeSpring cfg ns e = ns.map fun n =>
        if n.id = e.source then { n with vx := n.vx + fx, vy := n.vy + fy }
        else if n.id = e.target then { n with vx := n.vx - fx, vy := n.vy - fy }
        else n) ∧
    Real.sqrt (fx * fx + fy * fy) = |force| ∧
    fx * dy = fy * dx ∧
    fx * dx + fy * dy = force * d ∧
    (0 < cfg.attraction → 0 < e.strength →
      ((targetDistance < d → 0 < fx * dx + fy * dy) ∧
        (d < targetDistance → fx * dx + fy * dy < 0))) := by
  have hd0 : d ≠ 0 := ne_of_gt hd
  have hdd : d * d = dx * dx + dy * dy := by
    rw [hd_def]
    exact Real.mul_self_sqrt (add_nonneg (mul_self_nonneg dx) (mul_self_nonneg dy))
  have hdot : fx * dx + fy * dy = force * d := by
    rw [hfx, hfy]
    field_simp
    linear_combination (-force) * hdd
  refine ⟨?_, ?_, ?_, hdot, ?_⟩
  · unfold applyEdgeSpring
    rw [hs, ht]
    dsimp only
    rw [← hdx, ← hdy, ← hd_def, if_neg hd0, ← htarget, ← hforce, ← hfx, ← hfy]
  · have hsq : fx * fx + fy * fy = force * force := by
      rw [hfx, hfy]
      field_simp
      linear_combination (-force * force) * hdd
    rw [hsq, Real.sqrt_mul_self_eq_abs]
  · rw [hfx, hfy]; ring
  · intro hattr hstr
    constructor
    · intro hlt
      rw [hdot, hforce]
      have hF : 0 < cfg.attraction * (d - targetDistance) * e.strength :=
        mul_pos (mul_pos hattr (by linarith)) hstr
      exact mul_pos hF hd
    · intro hlt
      rw [hdot, hforce]
      have hF : cfg.attraction * (d - targetDistance) * e.strength < 0 :=
        mul_neg_of_neg_of_pos (mul_neg_of_pos_of_neg hattr (by linarith)) hstr
      exact mul_neg_of_neg_of_pos hF hd

end NoteMesh

namespace NoteMesh

/-- Witness for C3: two nodes at distance 5 joined by a direct edge under
the default physics configuration. -/
theorem c3_spring_force_witness :
    (applyEdgeSpring defaultPhysics [nodeS, nodeT] edgeST = [nodeS, nodeT].map fun n =>
        if n.id = edgeST.source then { n with vx := n.vx + -1.95, vy := n.vy + 0 }
        else if n.id = edgeST.target then { n with vx := n.vx - -1.95, vy := n.vy - 0 }
        else n) ∧
    Real.sqrt (-1.95 * -1.95 + 0 * 0) = |(-1.95 : ℝ)| ∧
    (-1.95 : ℝ) * 0 = 0 * 5 ∧
    (-1.95 : ℝ) * 5 + 0 * 0 = -1.95 * 5 ∧
    (0 < defaultPhysics.attraction → 0 < edgeST.strength →
      ((200 < (5:ℝ) → 0 < (-1.95 : ℝ) * 5 + 0 * 0) ∧
        ((5:ℝ) < 200 → (-1.95 : ℝ) * 5 + 0 * 0 < 0))) := by
  exact c3_spring_force defaultPhysics [nodeS, nodeT] edgeST nodeS nodeT
    5 5 0 200 (-1.95) (-1.95) 0
    rfl rfl
    (by norm_num [nodeT, nodeS])
    (by norm_num [nodeT, nodeS])
    (by rw [show (5:ℝ) * 5 + 0 * 0 = 5 ^ 2 by norm_num,
        Real.sqrt_sq (by norm_num : (0:ℝ) ≤ 5)])
    (by norm_num)
    rfl
    (by norm_num [edgeST, defaultPhysics])
    (by norm_num)
    (by norm_num)

end NoteMesh

namespace NoteMesh

theorem posEq_refl (n : GNode) : PosEq n n := ⟨rfl, rfl, rfl, rfl⟩

theorem posEq_trans {a b c : GNode} (h1 : PosEq a b) (h2 : PosEq b c) : PosEq a c :=
  ⟨h2.1.trans h1.1, h2.2.1.trans h1.2.1, h2.2.2.1.trans h1.2.2.1, h2.2.2.2.trans h1.2.2.2⟩

theorem forall₂_posEq_refl (l : List GNode) : List.Forall₂ PosEq l l :=
  List.forall₂_same.2 fun x _ => posEq_refl x

theorem forall₂_trans_general {α β γ : Type _} {R : α → β → Prop} {S : β → γ → Prop}
    {T : α → γ → Prop} (h : ∀ a b c, R a b → S b c → T a c) :
    ∀ {l₁ : List α} {l₂ : List β} {l₃ : List γ},
      List.Forall₂ R l₁ l₂ → List.Forall₂ S l₂ l₃ → List.Forall₂ T l₁ l₃ := by
  intro l₁ l₂ l₃ h12
  induction h12 generalizing l₃ with
  | nil => intro h23; cases h23; exact List.Forall₂.nil
  | cons hr _ ih =>
      intro h23
      cases h23 with
      | cons hs h23' => exact List.Forall₂.cons (h _ _ _ hr hs) (ih h23')

theorem forall₂_posEq_trans {l₁ l₂ l₃ : List GNode}
    (h1 : List.Forall₂ PosEq l₁ l₂) (h2 : List.Forall₂ PosEq l₂ l₃) :
    List.Forall₂ PosEq l₁ l₃ :=
  forall₂_trans_general (R := PosEq) (S := PosEq) (T := PosEq)
    (fun _ _ _ ha hb => posEq_trans ha hb) h1 h2

theorem repulseStep_posEq (cfg : PhysicsConfig) (ns : List GNode) (a b : Nat) :
    List.Forall₂ PosEq ns (repulseStep cfg ns a b) := by
  unfold repulseStep
  split
  · exact forall₂_posEq_refl ns
  split
  · dsimp only
    split
    · exact forall₂_posEq_refl ns
    split
    · refine List.forall₂_map_right_iff.2 (List.forall₂_same.2 fun x _ => ?_)
      by_cases h1 : x.id = a
      · rw [if_pos h1]; exact ⟨rfl, rfl, rfl, rfl⟩
      rw [if_neg h1]
      by_cases h2 : x.id = b
      · rw [if_pos h2]; exact ⟨rfl, rfl, rfl, rfl⟩
      rw [if_neg h2]; exact posEq_refl x
    · exact forall₂_posEq_refl ns
  · exact forall₂_posEq_refl ns

theorem applyEdgeSpring_posEq (cfg : PhysicsConfig) (ns : List GNode) (e : GEdge) :
    List.Forall₂ PosEq ns (applyEdgeSpring cfg ns e) := by
  unfold applyEdgeSpring
  split
  · dsimp only
    split
    · exact forall₂_posEq_refl ns
    · refine List.forall₂_map_right_iff.2 (List.forall₂_same.2 fun x _ => ?_)
      by_cases h1 : x.id = e.source
      · rw [if_pos h1]; exact ⟨rfl, rfl, rfl, rfl⟩
      rw [if_neg h1]
      by_cases h2 : x.id = e.target
      · rw [if_pos h2]; exact ⟨rfl, rfl, rfl, rfl⟩
      rw [if_neg h2]; exact posEq_refl x
  · exact forall₂_posEq_refl ns

theorem foldl_posEq {α : Type _} (f : List GNode → α → List GNode)
    (hf : ∀ acc x, List.Forall₂ PosEq acc (f acc x)) :
    ∀ (l : List α) (acc : List GNode), List.Forall₂ PosEq acc (l.foldl f acc) := by
  intro l
  induction l with
  | nil => exact fun acc => forall₂_posEq_refl acc
  | cons x xs ih =>
      exact fun acc => forall₂_posEq_trans (hf acc x) (ih (f acc x))

theorem applyRepulsion_posEq (cfg : PhysicsConfig) (ns : List GNode) :
    List.Forall₂ PosEq ns (applyRepulsion cfg ns) := by
  unfold applyRepulsion
  exact foldl_posEq _
    (fun acc aId => foldl_posEq _ (fun acc2 bId => repulseStep_posEq cfg acc2 aId bId) _ acc)
    _ ns

theorem applySprings_posEq (cfg : PhysicsConfig) (es : List GEdge) (ns : List GNode) :
    List.Forall₂ PosEq ns (applySprings cfg es ns) :=
  foldl_posEq _ (fun acc e => applyEdgeSpring_posEq cfg acc e) es ns

theorem integrate_forall₂ (cfg : PhysicsConfig) (d : Nat) (W H : ℝ) (ns : List GNode) :
    List.Forall₂
      (fun m n' => (m.id = d → n' = m) ∧ (m.id ≠ d → n' = integrateNode cfg W H m))
      ns (integrate cfg (some d) W H ns) := by
  refine List.forall₂_map_right_iff.2 (List.forall₂_same.2 fun m _ => ⟨?_, ?_⟩)
  · intro h
    rw [if_pos (by rw [h])]
  · intro h
    rw [if_neg fun hc => h (Option.some.inj hc).symm]

theorem integrateNode_id (cfg : PhysicsConfig) (W H : ℝ) (n : GNode) :
    (integrateNode cfg W H n).id = n.id := rfl

theorem c4_filter_lemma {d : Nat} {l₁ l₂ : List GNode}
    (h : List.Forall₂
      (fun n n' => n'.id = n.id ∧ (n.id = d → n'.x = n.x ∧ n'.y = n.y)) l₁ l₂) :
    (l₂.filter fun n => n.id == d).map (fun n => (n.x, n.y))
      = (l₁.filter fun n => n.id == d).map (fun n => (n.x, n.y)) := by
  induction h with
  | nil => rfl
  | cons hr h' ih =>
      rename_i a b l₁' l₂'
      by_cases hid : a.id = d
      · rw [List.filter_cons_of_pos (by simp [hr.1, hid]),
          List.filter_cons_of_pos (by simp [hid])]
        simp only [List.map_cons]
        rw [ih, (hr.2 hid).1, (hr.2 hid).2]
      · rw [List.filter_cons_of_neg (by simp [hr.1, hid]),
          List.filter_cons_of_neg (by simp [hid]), ih]

/-- The per-node relation between the pre-step list and the step's output:
ids correspond, and the dragged node's position is untouched. -/
theorem updatePhysics_drag_rel (cfg : PhysicsConfig) (es : List GEdge) (d : Nat)
    (W H : ℝ) (ns : List GNode) :
    List.Forall₂
      (fun n n' => n'.id = n.id ∧ (n.id = d → n'.x = n.x ∧ n'.y = n.y))
      ns (updatePhysics cfg es (some d) W H ns) := by
  have h1 : List.Forall₂ PosEq ns (applySprings cfg es (applyRepulsion cfg ns)) :=
    forall₂_posEq_trans (applyRepulsion_posEq cfg ns)
      (applySprings_posEq cfg es (applyRepulsion cfg ns))
  have h2 := integrate_forall₂ cfg d W H (applySprings cfg es (applyRepulsion cfg ns))
  refine forall₂_trans_general ?_ h1 h2
  intro n m n' hR hS
  have hid : m.id = n.id := hR.1
  by_cases hd : m.id = d
  · have hm := hS.1 hd
    subst hm
    exact ⟨hid, fun _ => ⟨hR.2.1, hR.2.2.1⟩⟩
  · have hm := hS.2 hd
    subst hm
    refine ⟨(integrateNode_id cfg W H m).trans hid, fun hnd => ?_⟩
    exact absurd (hid.trans hnd) hd

end NoteMesh

namespace NoteMesh

/-- **C4** (amended). After a drag-move event the dragged node's position is
the pointer mapped through the inverse camera transform and its velocity is
exactly zero; the physics step never changes the dragged node's position
(the integration/clamp loop skips it) while every other node is integrated;
but the force phases do still write to the dragged node's velocity. -/
theorem c4_amended_drag_semantics :
    (∀ (st : InteractionState) (px py : ℝ) (d : Nat) (n : GNode),
        st.isDragging = true → st.dragNode = some d →
        n ∈ (onMouseMove st px py).nodes → n.id = d →
        n.x = (px - st.camera.x) / st.camera.zoom ∧
        n.y = (py - st.camera.y) / st.camera.zoom ∧ n.vx = 0 ∧ n.vy = 0) ∧
    (∀ (cfg : PhysicsConfig) (es : List GEdge) (d : Nat) (W H : ℝ) (ns : List GNode),
        List.Forall₂ (fun n n' => n'.id = n.id ∧ (n.id = d → n'.x = n.x ∧ n'.y = n.y))
          ns (updatePhysics cfg es (some d) W H ns)) ∧
    (∀ (cfg : PhysicsConfig) (es : List GEdge) (d : Nat) (W H : ℝ) (ns : List GNode),
        List.Forall₂
          (fun m n' => (m.id = d → n' = m) ∧ (m.id ≠ d → n' = integrateNode cfg W H m))
          (applySprings cfg es (applyRepulsion cfg ns))
          (updatePhysics cfg es (some d) W H ns)) ∧
    (∀ (cfg : PhysicsConfig) (es : List GEdge) (d : Nat) (W H : ℝ) (ns : List GNode),
        ((updatePhysics cfg es (some d) W H ns).filter fun n => n.id == d).map
            (fun n => (n.x, n.y))
          = ((ns.filter fun n => n.id == d).map fun n => (n.x, n.y))) := by
  refine ⟨?_, updatePhysics_drag_rel, ?_, ?_⟩
  · intro st px py d n hdrag hnode hmem hid
    obtain ⟨isD, dragN, isP, lpp, hov, cam, nodes, cur⟩ := st
    dsimp only at hdrag hnode hmem ⊢
    subst hdrag hnode
    unfold onMouseMove at hmem
    dsimp only at hmem
    rcases List.mem_map.1 hmem with ⟨m, hm, rfl⟩
    by_cases h : m.id = d
    · rw [if_pos h]
      exact ⟨rfl, rfl, rfl, rfl⟩
    · rw [if_neg h] at hid
      exact absurd hid h
  · intro cfg es d W H ns
    exact integrate_forall₂ cfg d W H (applySprings cfg es (applyRepulsion cfg ns))
  · intro cfg es d W H ns
    exact c4_filter_lemma (updatePhysics_drag_rel cfg es d W H ns)

/-- **C4** (counterexample to the claim as stated): with the dragged node 1
at the origin and node 2 at distance 400 joined by a direct edge, the
physics step changes the dragged node's velocity from 0 to 2 — the force
passes do not skip the dragged node; only the integration loop does. -/
theorem c4_drag_velocity_counterexample :
    ((updatePhysics defaultPhysics [edgeST] (some 1) 1000 1000 [nodeS, nodeV]).map
        fun n => (n.id, n.vx)) = [(1, 2), (2, -1.9)] ∧ ((2 : ℝ) ≠ 0) := by
  have hs : Real.sqrt (160000 : ℝ) = 400 := by
    rw [show (160000 : ℝ) = 400 ^ 2 by norm_num, Real.sqrt_sq (by norm_num : (0:ℝ) ≤ 400)]
  have hdistSV : Real.sqrt ((nodeV.x - nodeS.x) * (nodeV.x - nodeS.x)
      + (nodeV.y - nodeS.y) * (nodeV.y - nodeS.y)) = 400 := by
    simp only [nodeS, nodeV]
    norm_num [hs]
  have hdistVS : Real.sqrt ((nodeS.x - nodeV.x) * (nodeS.x - nodeV.x)
      + (nodeS.y - nodeV.y) * (nodeS.y - nodeV.y)) = 400 := by
    simp only [nodeS, nodeV]
    norm_num [hs]
  have hA : repulseStep defaultPhysics [nodeS, nodeV] 1 1 = [nodeS, nodeV] := by
    unfold repulseStep
    rw [if_pos rfl]
  have hD : repulseStep defaultPhysics [nodeS, nodeV] 2 2 = [nodeS, nodeV] := by
    unfold repulseStep
    rw [if_pos rfl]
  have hB : repulseStep defaultPhysics [nodeS, nodeV] 1 2 = [nodeS, nodeV] := by
    unfold repulseStep
    rw [if_neg (by norm_num : ¬(1 : Nat) = 2),
      show List.find? (fun n => n.id == (1:Nat)) [nodeS, nodeV] = some nodeS from rfl,
      show List.find? (fun n => n.id == (2:Nat)) [nodeS, nodeV] = some nodeV from rfl]
    dsimp only
    rw [hdistSV, if_neg (by norm_num : ¬(400:ℝ) = 0),
      if_neg (by norm_num [defaultPhysics] : ¬(400:ℝ) < defaultPhysics.maxDistance)]
  have hC : repulseStep defaultPhysics [nodeS, nodeV] 2 1 = [nodeS, nodeV] := by
    unfold repulseStep
    rw [if_neg (by norm_num : ¬(2 : Nat) = 1),
      show List.find? (fun n => n.id == (2:Nat)) [nodeS, nodeV] = some nodeV from rfl,
      show List.find? (fun n => n.id == (1:Nat)) [nodeS, nodeV] = some nodeS from rfl]
    dsimp only
    rw [hdistVS, if_neg (by norm_num : ¬(400:ℝ) = 0),
      if_neg (by norm_num [defaultPhysics] : ¬(400:ℝ) < defaultPhysics.maxDistance)]
  have hrep : applyRepulsion defaultPhysics [nodeS, nodeV] = [nodeS, nodeV] := by
    unfold applyRepulsion
    dsimp only
    rw [show List.map (fun n : GNode => n.id) [nodeS, nodeV] = [1, 2] from rfl]
    simp only [List.foldl_cons, List.foldl_nil]
    rw [hA, hB, hC, hD]
  refine ⟨?_, by norm_num⟩
  unfold updatePhysics applySprings
  rw [hrep]
  simp only [List.foldl_cons, List.foldl_nil]
  unfold applyEdgeSpring
  rw [show List.find? (fun n => n.id == edgeST.source) [nodeS, nodeV] = some nodeS from rfl,
    show List.find? (fun n => n.id == edgeST.target) [nodeS, nodeV] = some nodeV from rfl]
  dsimp only
  rw [hdistSV, if_neg (by norm_num : ¬(400:ℝ) = 0),
    if_neg (by decide : ¬ edgeST.kind = EdgeKind.tag)]
  unfold integrate integrateNode
  simp only [List.map_cons, List.map_nil, nodeS, nodeV, edgeST, defaultPhysics]
  norm_num

end NoteMesh

namespace NoteMesh

theorem integrateNode_bounds (cfg : PhysicsConfig) (W H : ℝ) (n : GNode)
    (hW : 2 * (n.radius + 10) ≤ W) (hH : 2 * (n.radius + 10) ≤ H) :
    (0 ≤ (integrateNode cfg W H n).x - (n.radius + 10) ∧
      (integrateNode cfg W H n).x + n.radius + 10 ≤ W ∧
      0 ≤ (integrateNode cfg W H n).y - (n.radius + 10) ∧
      (integrateNode cfg W H n).y + n.radius + 10 ≤ H) ∧
    ((n.x + n.vx * cfg.damping < n.radius + 10 ∨
        W - (n.radius + 10) < n.x + n.vx * cfg.damping) →
      (integrateNode cfg W H n).vx = 0) ∧
    ((n.y + n.vy * cfg.damping < n.radius + 10 ∨
        H - (n.radius + 10) < n.y + n.vy * cfg.damping) →
      (integrateNode cfg W H n).vy = 0) := by
  unfold integrateNode
  dsimp only
  by_cases hx1 : n.x + n.vx * cfg.damping < n.radius + 10
  · rw [if_pos hx1]
    dsimp only
    rw [if_neg (by linarith : ¬ n.radius + 10 > W - (n.radius + 10))]
    by_cases hy1 : n.y + n.vy * cfg.damping < n.radius + 10
    · rw [if_pos hy1]
      dsimp only
      rw [if_neg (by linarith : ¬ n.radius + 10 > H - (n.radius + 10))]
      exact ⟨⟨by (try dsimp only); linarith, by (try dsimp only); linarith, by (try dsimp only); linarith, by (try dsimp only); linarith⟩,
        fun _ => rfl, fun _ => rfl⟩
    · rw [if_neg hy1]
      dsimp only
      by_cases hy2 : n.y + n.vy * cfg.damping > H - (n.radius + 10)
      · rw [if_pos hy2]
        exact ⟨⟨by (try dsimp only); linarith, by (try dsimp only); linarith, by (try dsimp only); linarith, by (try dsimp only); linarith⟩,
          fun _ => rfl, fun _ => rfl⟩
      · rw [if_neg hy2]
        refine ⟨⟨by (try dsimp only); linarith, by (try dsimp only); linarith, by (try dsimp only); linarith, by (try dsimp only); linarith⟩,
          fun _ => rfl, fun hy => ?_⟩
        rcases hy with hy | hy
        · exact absurd hy hy1
        · exact absurd hy hy2
  · rw [if_neg hx1]
    dsimp only
    by_cases hx2 : n.x + n.vx * cfg.damping > W - (n.radius + 10)
    · rw [if_pos hx2]
      by_cases hy1 : n.y + n.vy * cfg.damping < n.radius + 10
      · rw [if_pos hy1]
        dsimp only
        rw [if_neg (by linarith : ¬ n.radius + 10 > H - (n.radius + 10))]
        exact ⟨⟨by (try dsimp only); linarith, by (try dsimp only); linarith, by (try dsimp only); linarith, by (try dsimp only); linarith⟩,
          fun _ => rfl, fun _ => rfl⟩
      · rw [if_neg hy1]
        dsimp only
        by_cases hy2 : n.y + n.vy * cfg.damping > H - (n.radius + 10)
        · rw [if_pos hy2]
          exact ⟨⟨by (try dsimp only); linarith, by (try dsimp only); linarith, by (try dsimp only); linarith, by (try dsimp only); linarith⟩,
            fun _ => rfl, fun _ => rfl⟩
        · rw [if_neg hy2]
          refine ⟨⟨by (try dsimp only); linarith, by (try dsimp only); linarith, by (try dsimp only); linarith, by (try dsimp only); linarith⟩,
            fun _ => rfl, fun hy => ?_⟩
          rcases hy with hy | hy
          · exact absurd hy hy1
          · exact absurd hy hy2
    · rw [if_neg hx2]
      by_cases hy1 : n.y + n.vy * cfg.damping < n.radius + 10
      · rw [if_pos hy1]
        dsimp only
        rw [if_neg (by linarith : ¬ n.radius + 10 > H - (n.radius + 10))]
        refine ⟨⟨by (try dsimp only); linarith, by (try dsimp only); linarith, by (try dsimp only); linarith, by (try dsimp only); linarith⟩,
          fun hx => ?_, fun _ => rfl⟩
        rcases hx with hx | hx
        · exact absurd hx hx1
        · exact absurd hx hx2
      · rw [if_neg hy1]
        dsimp only
        by_cases hy2 : n.y + n.vy * cfg.damping > H - (n.radius + 10)
        · rw [if_pos hy2]
          refine ⟨⟨by (try dsimp only); linarith, by (try dsimp only); linarith, by (try dsimp only); linarith, by (try dsimp only); linarith⟩,
            fun hx => ?_, fun _ => rfl⟩
          rcases hx with hx | hx
          · exact absurd hx hx1
          · exact absurd hx hx2
        · rw [if_neg hy2]
          refine ⟨⟨by (try dsimp only); linarith, by (try dsimp only); linarith, by (try dsimp only); linarith, by (try dsimp only); linarith⟩,
            fun hx => ?_, fun hy => ?_⟩
          · rcases hx with hx | hx
            · exact absurd hx hx1
            · exact absurd hx hx2
          · rcases hy with hy | hy
            · exact absurd hy hy1
            · exact absurd hy hy2

end NoteMesh

namespace NoteMesh

/-- **C6** (amended).  Provided the canvas admits the node's margin on each
axis (`2 × (radius + 10) ≤ canvas side`): after the physics step every
non-dragged node's position ± radius plus the 10-pixel margin lies within
`[0, canvasWidth] × [0, canvasHeight]`, and on any axis where the clamp
fired during the step the velocity component is exactly zero (inelastic
wall); the step integrates exactly the non-dragged nodes. -/
theorem c6_boundary_clamping :
    (∀ (cfg : PhysicsConfig) (es : List GEdge) (drag : Option Nat) (W H : ℝ)
        (ns : List GNode) (m : GNode),
        m ∈ updatePhysics cfg es drag W H ns → drag ≠ some m.id →
        2 * (m.radius + 10) ≤ W → 2 * (m.radius + 10) ≤ H →
        0 ≤ m.x - (m.radius + 10) ∧ m.x + m.radius + 10 ≤ W ∧
        0 ≤ m.y - (m.radius + 10) ∧ m.y + m.radius + 10 ≤ H) ∧
    (∀ (cfg : PhysicsConfig) (W H : ℝ) (n : GNode),
        2 * (n.radius + 10) ≤ W → 2 * (n.radius + 10) ≤ H →
        ((n.x + n.vx * cfg.damping < n.radius + 10 ∨
            W - (n.radius + 10) < n.x + n.vx * cfg.damping) →
          (integrateNode cfg W H n).vx = 0) ∧
        ((n.y + n.vy * cfg.damping < n.radius + 10 ∨
            H - (n.radius + 10) < n.y + n.vy * cfg.damping) →
          (integrateNode cfg W H n).vy = 0)) ∧
    (∀ (cfg : PhysicsConfig) (es : List GEdge) (drag : Option Nat) (W H : ℝ)
        (ns : List GNode),
        updatePhysics cfg es drag W H ns
          = (applySprings cfg es (applyRepulsion cfg ns)).map
              fun m => if drag = some m.id then m else integrateNode cfg W H m) := by
  refine ⟨?_, ?_, fun _ _ _ _ _ _ => rfl⟩
  · intro cfg es drag W H ns m hmem hdrag hW hH
    rcases List.mem_map.1 hmem with ⟨n, _, rfl⟩
    by_cases hd : drag = some n.id
    · rw [if_pos hd] at hdrag ⊢
      exact absurd hd hdrag
    · rw [if_neg hd]
      rw [if_neg hd] at hW hH hdrag
      rw [show (integrateNode cfg W H n).radius = n.radius from rfl] at hW hH ⊢
      exact (integrateNode_bounds cfg W H n hW hH).1
  · intro cfg W H n hW hH
    exact (integrateNode_bounds cfg W H n hW hH).2

/-- **C6** (counterexample to the claim as stated): on a 10-pixel-wide
canvas a single stationary node of radius 8 (margin 18) ends the step at
x = −8, where position − radius − margin is −26 < 0 — the two sequential
clamps fight and the boundary postcondition fails on a canvas narrower
than twice the margin. -/
theorem c6_small_canvas_counterexample :
    ((updatePhysics defaultPhysics [] none 10 100 [nodeW]).map
        fun n => n.x - (n.radius + 10)) = [-26] ∧ ¬ (0:ℝ) ≤ -26 := by
  have hrep : applyRepulsion defaultPhysics [nodeW] = [nodeW] := by
    unfold applyRepulsion
    dsimp only
    rw [show List.map (fun n : GNode => n.id) [nodeW] = [1] from rfl]
    simp only [List.foldl_cons, List.foldl_nil]
    unfold repulseStep
    rw [if_pos rfl]
  refine ⟨?_, by norm_num⟩
  unfold updatePhysics applySprings
  rw [hrep]
  simp only [List.foldl_nil]
  unfold integrate integrateNode
  simp only [List.map_cons, List.map_nil, nodeW,
    if_neg (show ¬ ((none : Option Nat) = some 1) from fun h => Option.noConfusion h)]
  norm_num

end NoteMesh

namespace NoteMesh

/-- **C7** (code evaluation). `render` has no empty-node check: for every
camera, canvas size and measure function, rendering an empty node/edge set
clears the surface and draws no edge and no node, but always draws the
three stats-overlay lines and never the two-line empty-state message (only
`generateGraph` draws that message, and the next frame's clear erases it). -/
theorem c7_render_empty_draws_stats (measure : String → ℝ) (cam : Camera) (W H : ℝ) :
    render measure [] [] cam none none W H
      = [Cmd.clearRect 0 0 W H, Cmd.save, Cmd.translate cam.x cam.y, Cmd.scale cam.zoom,
         Cmd.restore, Cmd.text "Notes: 0" 16 16, Cmd.text "Connections: 0" 16 36,
         Cmd.text ("Zoom: " ++ toString (jsRound (cam.zoom * 100)) ++ "%") 16 56] ∧
    (∀ x y : ℝ, Cmd.text "No notes to visualize" x y ∉ render measure [] [] cam none none W H) ∧
    renderEmptyState W H
      = [Cmd.text "No notes to visualize" (W / 2) (H / 2 - 20),
         Cmd.text "Create some notes and link them to see the graph" (W / 2) (H / 2 + 10)] := by
  have heq : render measure [] [] cam none none W H
      = [Cmd.clearRect 0 0 W H, Cmd.save, Cmd.translate cam.x cam.y, Cmd.scale cam.zoom,
         Cmd.restore, Cmd.text "Notes: 0" 16 16, Cmd.text "Connections: 0" 16 36,
         Cmd.text ("Zoom: " ++ toString (jsRound (cam.zoom * 100)) ++ "%") 16 56] := rfl
  refine ⟨heq, ?_, rfl⟩
  intro x y h
  rw [heq] at h
  simp only [List.mem_cons, List.not_mem_nil, or_false] at h
  rcases h with h | h | h | h | h | h | h | h
  · exact Cmd.noConfusion h
  · exact Cmd.noConfusion h
  · exact Cmd.noConfusion h
  · exact Cmd.noConfusion h
  · exact Cmd.noConfusion h
  · exact absurd (Cmd.text.inj h).1 (by decide)
  · exact absurd (Cmd.text.inj h).1 (by decide)
  · have h2 : ("No notes to visualize" : String).data.head?
        = ("Zoom: " ++ toString (jsRound (cam.zoom * 100)) ++ "%").data.head? :=
      congrArg (fun s : String => s.data.head?) (Cmd.text.inj h).1
    rw [String.data_append, String.data_append,
      show ("Zoom: " : String).data = 'Z' :: ("oom: " : String).data from rfl] at h2
    simp only [List.cons_append, List.head?_cons] at h2
    exact absurd h2 (by decide)

/-- **C10.** `getNodeAt` maps the pointer through the inverse camera
transform and returns the first node in node-array order whose center is
within its stored radius; the enlarged drawing radii for hovered/selected
nodes do not enlarge the hit area — concretely, a selected node of stored
radius 8 is drawn at radius 12, yet a pointer at distance 10 from its
center hits nothing. -/
theorem c10_hit_test_uses_stored_radius :
    (∀ (ns : List GNode) (cam : Camera) (x y : ℝ) (n : GNode),
        getNodeAt ns cam x y = some n →
        n ∈ ns ∧
        Real.sqrt (((x - cam.x) / cam.zoom - n.x) * ((x - cam.x) / cam.zoom - n.x)
            + ((y - cam.y) / cam.zoom - n.y) * ((y - cam.y) / cam.zoom - n.y)) ≤ n.radius) ∧
    (∀ (l₁ l₂ : List GNode) (cam : Camera) (x y : ℝ) (n : GNode),
        Real.sqrt (((x - cam.x) / cam.zoom - n.x) * ((x - cam.x) / cam.zoom - n.x)
            + ((y - cam.y) / cam.zoom - n.y) * ((y - cam.y) / cam.zoom - n.y)) ≤ n.radius →
        (∀ m ∈ l₁,
          ¬ Real.sqrt (((x - cam.x) / cam.zoom - m.x) * ((x - cam.x) / cam.zoom - m.x)
              + ((y - cam.y) / cam.zoom - m.y) * ((y - cam.y) / cam.zoom - m.y)) ≤ m.radius) →
        getNodeAt (l₁ ++ n :: l₂) cam x y = some n) ∧
    (Cmd.circle nodeS.x nodeS.y nodeRadiusSelected "selected"
        ∈ renderNodes (fun _ => 0) [nodeS] (some 1) none ∧
      Real.sqrt ((10 - nodeS.x) * (10 - nodeS.x) + (0 - nodeS.y) * (0 - nodeS.y))
        ≤ nodeRadiusSelected ∧
      getNodeAt [nodeS] (Camera.mk 0 0 1) 10 0 = none) := by
  have hsqrt100 : Real.sqrt (100 : ℝ) = 10 := by
    rw [show (100 : ℝ) = 10 ^ 2 by norm_num, Real.sqrt_sq (by norm_num : (0:ℝ) ≤ 10)]
  refine ⟨?_, ?_, ?_, ?_, ?_⟩
  · intro ns cam x y n h
    unfold getNodeAt at h
    dsimp only at h
    refine ⟨List.mem_of_find?_eq_some h, ?_⟩
    have h1 := List.find?_some h
    exact of_decide_eq_true h1
  · intro l₁ l₂ cam x y n hn hmiss
    unfold getNodeAt
    dsimp only
    revert hmiss
    induction l₁ with
    | nil =>
        intro _
        exact List.find?_cons_of_pos _ (decide_eq_true hn)
    | cons m l₁' ih =>
        intro hmiss
        rw [List.cons_append, List.find?_cons_of_neg]
        · exact ih fun m' hm' => hmiss m' (List.mem_cons_of_mem _ hm')
        · simp only [decide_eq_true_eq]
          exact hmiss m (List.mem_cons_self _ _)
  · unfold renderNodes
    simp only [List.foldl_cons, List.foldl_nil, nodeS]
    simp [List.mem_append]
  · rw [show nodeS.x = (0:ℝ) from rfl, show nodeS.y = (0:ℝ) from rfl]
    rw [show nodeRadiusSelected = (12:ℝ) from rfl]
    norm_num [hsqrt100]
  · unfold getNodeAt
    dsimp only
    rw [List.find?_cons_of_neg _ (by
      simp only [decide_eq_true_eq]
      rw [show nodeS.x = (0:ℝ) from rfl, show nodeS.y = (0:ℝ) from rfl,
        show nodeS.radius = (8:ℝ) from rfl]
      norm_num [hsqrt100])]
    rfl

end NoteMesh
